import Mathlib

/-!
# go-vector: a verification development

Shallow embedding of `vector.go` (package `vector`): the type `Vector`
(`[]float64`) with `NewVector`, `Add`, `Sub`, `Mul`, `Dot`, `Cross`, `Norm`.

* `float64` is modelled as IEEE 754 binary64 with round-to-nearest-even, every
  operation rounded on its own (no fused multiply-add), all NaNs collapsed
  into one value.
* A Go panic is the `error` side of `Except Panic`; slice indexing and `make`
  are fallible exactly as in Go, `make` also on a length beyond the runtime's
  allocation limit.
* `for i := 0; i < n; i++ { body }`, whose body changes neither `i` nor `n`,
  is `forRange n 0 body`: the body run at `i = 0, 1, ..., n-1`.
* The functions are embedded twice: on values (a `Vector` is the list of its
  components), where what they compute is stated, and on a heap (`Mem`, a
  `Vector` is a slice header into a backing array), where what they leave
  untouched is stated. The `Mem.*_refines` theorems relate the two.
* `F64.toRat`, `F64.exact` and `F64.valid` are specification vocabulary: the real
  number a float64 stands for, an operation that lost nothing to rounding, and
  a value that is a float64 bit pattern.
-/

namespace GoVector

/-! ## float64 -/

/-- IEEE 754 binary64 value. `fin neg m e` is `(-1)^neg * m * 2^e`, kept in
canonical form by `F64.round`: `m < 2^53`, `-1074 ≤ e ≤ 971`, and `m ≥ 2^52`
unless `e = -1074` (subnormals and the two zeros). -/
inductive F64 where
  | nan : F64
  | inf (neg : Bool) : F64
  | fin (neg : Bool) (m : Nat) (e : Int) : F64
  deriving DecidableEq, Repr

namespace F64

/-- Smallest exponent of the unit in the last place (subnormal range). -/
def minExp : Int := -1074

/-- Largest exponent of the unit in the last place of a finite value. -/
def maxExp : Int := 971

/-- Positive zero, the zero value of `float64`. -/
def zero : F64 := fin false 0 minExp

/-- Number of binary digits of `m`, counted by halving at most `fuel` times. -/
def bitLenAux : Nat → Nat → Nat
  | 0, _ => 0
  | fuel + 1, m => if m = 0 then 0 else bitLenAux fuel (m / 2) + 1

/-- Number of binary digits of `m` (0 for 0). -/
def bitLen (m : Nat) : Nat := bitLenAux m m

/-- Round the exact value `(-1)^neg * m * 2^e` to the nearest binary64, ties to
even; overflow gives an infinity. -/
def round (neg : Bool) (m : Nat) (e : Int) : F64 :=
  if m = 0 then fin neg 0 minExp
  else
    let e1 : Int := max (e + (bitLen m : Int) - 53) minExp
    if e1 ≤ e then
      if e1 > maxExp then inf neg else fin neg (m * 2 ^ (e - e1).toNat) e1
    else
      let sh : Nat := (e1 - e).toNat
      let q : Nat := m / 2 ^ sh
      let r : Nat := m % 2 ^ sh
      let half : Nat := 2 ^ (sh - 1)
      let q1 : Nat := if r > half ∨ (r = half ∧ q % 2 = 1) then q + 1 else q
      if q1 = 0 then fin neg 0 minExp
      else if q1 = 2 ^ 53 then
        (if e1 + 1 > maxExp then inf neg else fin neg (2 ^ 52) (e1 + 1))
      else if e1 > maxExp then inf neg else fin neg q1 e1

/-- The float64 constant for a natural number literal. -/
def ofNat (n : Nat) : F64 := round false n 0

/-- Unary minus. -/
def neg : F64 → F64
  | nan => nan
  | inf s => inf (!s)
  | fin s m e => fin (!s) m e

/-- The float64 constant for an integer literal. -/
def ofInt : Int → F64
  | Int.ofNat n => ofNat n
  | Int.negSucc n => neg (ofNat (n + 1))

/-- Go `x + y` on float64. -/
def add : F64 → F64 → F64
  | nan, _ => nan
  | _, nan => nan
  | inf s, inf t => if s = t then inf s else nan
  | inf s, fin _ _ _ => inf s
  | fin _ _ _, inf t => inf t
  | fin s m e, fin t n f =>
    let g : Int := min e f
    let a : Int := (if s then -1 else 1) * ((m * 2 ^ (e - g).toNat : Nat) : Int)
    let b : Int := (if t then -1 else 1) * ((n * 2 ^ (f - g).toNat : Nat) : Int)
    let c : Int := a + b
    if c = 0 then fin (s && t) 0 minExp
    else round (decide (c < 0)) c.natAbs g

/-- Go `x - y` on float64. -/
def sub (x y : F64) : F64 := add x (neg y)

/-- Go `x * y` on float64. -/
def mul : F64 → F64 → F64
  | nan, _ => nan
  | _, nan => nan
  | inf s, inf t => inf (xor s t)
  | inf s, fin t n _ => if n = 0 then nan else inf (xor s t)
  | fin s m _, inf t => if m = 0 then nan else inf (xor s t)
  | fin s m e, fin t n f => round (xor s t) (m * n) (e + f)

/-- Integer square root by binary digits: the largest `r` below `2^k` extending
`acc` with `r * r ≤ n`. -/
def isqrtAux (n : Nat) : Nat → Nat → Nat
  | 0, acc => acc
  | k + 1, acc =>
    let c := acc + 2 ^ k
    if c * c ≤ n then isqrtAux n k c else isqrtAux n k acc

/-- Integer square root. -/
def isqrt (n : Nat) : Nat := isqrtAux n (bitLen n / 2 + 1) 0

/-- Go `math.Sqrt(x)`. -/
def sqrt : F64 → F64
  | nan => nan
  | inf s => if s then nan else inf false
  | fin s m e =>
    if m = 0 then fin s 0 minExp
    else if s then nan
    else
      let m1 : Nat := if e % 2 = 0 then m else 2 * m
      let e1 : Int := if e % 2 = 0 then e else e - 1
      let big : Nat := m1 * 2 ^ 128
      let r : Nat := isqrt big
      let sticky : Nat := if r * r = big then 0 else 1
      round false (2 * r + sticky) (e1 / 2 - 64 - 1)

end F64

/-! ## Panics, slices and loops -/

/-- The ways a call of this package can panic: an explicit `panic(msg)`, an
index out of range, or `make` with a length out of range ("makeslice: len out
of range": negative, or beyond the allocation limit). -/
inductive Panic where
  | user (msg : String) : Panic
  | indexOutOfRange : Panic
  | makesliceLen : Panic
  deriving DecidableEq, Repr

/-- Go `type Vector []float64`. -/
abbrev Vector := List F64

/-- Go `v[i]` read: panics when `i` is not below `len(v)`. -/
def index (v : Vector) (i : Nat) : Except Panic F64 :=
  match v[i]? with
  | some x => .ok x
  | none => .error Panic.indexOutOfRange

/-- Go `v[i] = x`: panics when `i` is not below `len(v)`. -/
def store (v : Vector) (i : Nat) (x : F64) : Except Panic Vector :=
  if i < v.length then .ok (v.set i x) else .error Panic.indexOutOfRange

/-- Go `for i := lo; i < lo + k; i++ { s = body(i, s) }`: the body run at
`lo, lo+1, ..., lo+k-1`, stopping at the first panic. -/
def forRange {σ : Type} : Nat → Nat → (Nat → σ → Except Panic σ) → σ → Except Panic σ
  | 0, _, _, s => .ok s
  | k + 1, lo, body, s =>
    match body lo s with
    | .ok s1 => forRange k (lo + 1) body s1
    | .error p => .error p

/-! ## The package -/

/-- The Go runtime's `maxAlloc`, the largest size in bytes `make` accepts: `2^48`
on the 64-bit platforms (linux, darwin and windows on amd64 and arm64). It is a
constant of the runtime, not of this package. -/
def maxAlloc : Int := 2 ^ 48

/-- Go `NewVector`: `Vector(make([]float64, n))`, zero-filled. `make` panics with
"makeslice: len out of range" on a negative length and on a length whose `8 * n`
bytes exceed `maxAlloc`. Running out of memory below that limit is a fatal
error of the process, not a panic, and is not part of the model. -/
def NewVector (n : Int) : Except Panic Vector :=
  if n < 0 ∨ 8 * n > maxAlloc then .error Panic.makesliceLen
  else .ok (List.replicate n.toNat F64.zero)

/-- Go `NewVector(len(v))` for a vector `v` that exists, as `Add`, `Sub` and
`Mul` call it: the length of an allocated `[]float64` is neither negative nor
beyond the allocation limit, so neither panic of `make` can occur and the call
returns `len(v)` zeros. -/
def NewVectorLen (n : Nat) : Except Panic Vector :=
  .ok (List.replicate n F64.zero)

/-- Go `Add`. -/
def Add (v1 v2 : Vector) : Except Panic Vector :=
  if v1.length ≠ v2.length then .error (Panic.user "dimensions don't match")
  else do
    let v ← NewVectorLen v1.length
    forRange v1.length 0 (fun i v => do
      let x ← index v1 i
      let y ← index v2 i
      store v i (F64.add x y)) v

/-- Go `Sub`. -/
def Sub (v1 v2 : Vector) : Except Panic Vector :=
  if v1.length ≠ v2.length then .error (Panic.user "dimensions don't match")
  else do
    let v ← NewVectorLen v1.length
    forRange v1.length 0 (fun i v => do
      let x ← index v1 i
      let y ← index v2 i
      store v i (F64.sub x y)) v

/-- Go `Mul`. -/
def Mul (v1 : Vector) (f : F64) : Except Panic Vector := do
  let v ← NewVectorLen v1.length
  forRange v1.length 0 (fun i v => do
    let x ← index v1 i
    store v i (F64.mul x f)) v

/-- Go `Dot`. -/
def Dot (v1 v2 : Vector) : Except Panic F64 :=
  if v1.length ≠ v2.length then .error (Panic.user "dimensions don't match")
  else
    forRange v1.length 0 (fun i s => do
      let x ← index v1 i
      let y ← index v2 i
      pure (F64.add s (F64.mul x y))) F64.zero

/-- Go `Cross`. -/
def Cross (v1 v2 : Vector) : Except Panic Vector :=
  if v1.length ≠ 3 ∨ v2.length ≠ 3 then
    .error (Panic.user "cross product: both vectors must be 3-dimentional")
  else do
    let a1 ← index v1 1
    let b2 ← index v2 2
    let a2 ← index v1 2
    let b1 ← index v2 1
    let a2r ← index v1 2
    let b0 ← index v2 0
    let a0 ← index v1 0
    let b2r ← index v2 2
    let a0r ← index v1 0
    let b1r ← index v2 1
    let a1r ← index v1 1
    let b0r ← index v2 0
    pure [F64.sub (F64.mul a1 b2) (F64.mul a2 b1),
          F64.sub (F64.mul a2r b0) (F64.mul a0 b2r),
          F64.sub (F64.mul a0r b1r) (F64.mul a1r b0r)]

/-- Go `Norm`. -/
def Norm (v1 : Vector) : Except Panic F64 := do
  let s ← forRange v1.length 0 (fun i s => do
    let x ← index v1 i
    pure (F64.add s (F64.mul x x))) F64.zero
  pure (F64.sqrt s)

/-- The vector literal `Vector([]float64{...})` of integer constants. -/
def lit (xs : List Int) : Vector := xs.map F64.ofInt

/-! ## Comparisons, constants and the value of a float64 -/

namespace F64

/-- Go `math.Abs(x)`. -/
def abs : F64 → F64
  | nan => nan
  | inf _ => inf false
  | fin _ m e => fin false m e

/-- Go `x == y` on float64: false as soon as one side is NaN, true between the
two zeros. -/
def equal : F64 → F64 → Bool
  | nan, _ => false
  | _, nan => false
  | inf s, inf t => s == t
  | inf _, fin _ _ _ => false
  | fin _ _ _, inf _ => false
  | fin s m e, fin t n f =>
    let g : Int := min e f
    let a : Int := (if s then -1 else 1) * ((m * 2 ^ (e - g).toNat : Nat) : Int)
    let b : Int := (if t then -1 else 1) * ((n * 2 ^ (f - g).toNat : Nat) : Int)
    decide (a = b)

/-- Go `x < y` on float64: false as soon as one side is NaN. -/
def less : F64 → F64 → Bool
  | nan, _ => false
  | _, nan => false
  | inf s, inf t => s && !t
  | inf s, fin _ _ _ => s
  | fin _ _ _, inf t => !t
  | fin s m e, fin t n f =>
    let g : Int := min e f
    let a : Int := (if s then -1 else 1) * ((m * 2 ^ (e - g).toNat : Nat) : Int)
    let b : Int := (if t then -1 else 1) * ((n * 2 ^ (f - g).toNat : Nat) : Int)
    decide (a < b)

/-- The float64 nearest to the exact constant `n / d` (for `d > 0`), as Go
converts an untyped constant such as `1e-15` to float64. The quotient is taken
with 64 extra digits and a sticky last digit, then rounded once. -/
def ofRatio (n d : Nat) : F64 :=
  let k : Nat := bitLen d + 64
  let q : Nat := n * 2 ^ k / d
  let sticky : Nat := if n * 2 ^ k % d = 0 then 0 else 1
  round false (2 * q + sticky) (-(k : Int) - 1)

/-- Whether a value is neither NaN nor an infinity. -/
def finite : F64 → Bool
  | fin _ _ _ => true
  | _ => false

/-- Whether a value is a float64 bit pattern: every NaN and infinity, and the
finite values in canonical form. -/
def valid : F64 → Bool
  | fin _ m e => decide (m < 2 ^ 53 ∧ minExp ≤ e ∧ e ≤ maxExp ∧ (e = minExp ∨ 2 ^ 52 ≤ m))
  | _ => true

/-- The real number a finite value stands for (0 for NaN and the infinities). -/
def toRat : F64 → ℚ
  | fin s m e => (if s then -1 else 1) * (m : ℚ) * (2 : ℚ) ^ e
  | _ => 0

/-- Two values are the same number: Go `x == y` holds, or both are NaN. -/
def same (x y : F64) : Prop := equal x y = true ∨ (x = nan ∧ y = nan)

/-- The result `r` of an operation is exact: it is finite and is the real number
`q`, so nothing was lost to rounding or overflow. -/
def exact (r : F64) (q : ℚ) : Prop := r.finite = true ∧ r.toRat = q

end F64

/-- Go `const tolerance = 1e-15` of `vector_test.go`, as a float64. -/
def tolerance : F64 := F64.ofRatio 1 (10 ^ 15)

/-- Go `eq` of `vector_test.go`: `math.Abs(a-b) < tolerance`. -/
def eq (a b : F64) : Bool := F64.less (F64.abs (F64.sub a b)) tolerance

/-! ## The package on a heap

The same functions once more, with the memory made explicit: a `Vector` is a
slice header pointing into a backing array on a heap, as in Go, so that two
vectors may share memory and a store is visible through every alias. This is
the model in which "no operation mutates its operands" is a statement. -/

namespace Mem

/-- A Go slice header of a `[]float64`: backing array, offset into it, length. -/
structure Slice where
  arr : Nat
  off : Nat
  len : Nat
  deriving DecidableEq, Repr

/-- The heap: the backing arrays allocated so far, by array number. -/
abbrev Heap := List (List F64)

/-- A computation on the heap that returns or panics; the heap it leaves behind
is kept in both cases. -/
def M (α : Type) : Type := Heap → Except Panic α × Heap

instance : Monad M where
  pure a := fun h => (.ok a, h)
  bind m f := fun h =>
    match m h with
    | (.ok a, h1) => f a h1
    | (.error p, h1) => (.error p, h1)

/-- Go `panic(...)`. -/
def panic {α : Type} (p : Panic) : M α := fun h => (.error p, h)

/-- Go `make([]float64, n)`: a new zero-filled backing array; it panics, leaving
the heap alone, on a negative length and on one beyond the allocation limit. -/
def make (n : Int) : M Slice := fun h =>
  if n < 0 ∨ 8 * n > maxAlloc then (.error Panic.makesliceLen, h)
  else (.ok ⟨h.length, 0, n.toNat⟩, h ++ [List.replicate n.toNat F64.zero])

/-- Go composite literal `[]float64{x, y, ...}`: a new backing array holding the
given values. -/
def literal (xs : List F64) : M Slice := fun h =>
  (.ok ⟨h.length, 0, xs.length⟩, h ++ [xs])

/-- Go `v[i]` read. -/
def get (v : Slice) (i : Nat) : M F64 := fun h =>
  if i < v.len then
    match h[v.arr]? with
    | some a =>
      match a[v.off + i]? with
      | some x => (.ok x, h)
      | none => (.error Panic.indexOutOfRange, h)
    | none => (.error Panic.indexOutOfRange, h)
  else (.error Panic.indexOutOfRange, h)

/-- Go `v[i] = x`: a store into the backing array of `v`. -/
def set (v : Slice) (i : Nat) (x : F64) : M Unit := fun h =>
  if i < v.len then
    match h[v.arr]? with
    | some a => (.ok (), h.set v.arr (a.set (v.off + i) x))
    | none => (.error Panic.indexOutOfRange, h)
  else (.error Panic.indexOutOfRange, h)

/-- Go `for i := lo; i < lo + k; i++ { s = body(i, s) }` on the heap. -/
def forRange {σ : Type} : Nat → Nat → (Nat → σ → M σ) → σ → M σ
  | 0, _, _, s => pure s
  | k + 1, lo, body, s => do
    let s1 ← body lo s
    forRange k (lo + 1) body s1

/-- Go `NewVector`. -/
def NewVector (n : Int) : M Slice := make n

/-- Go `Add`. -/
def Add (v1 v2 : Slice) : M Slice :=
  if v1.len ≠ v2.len then panic (Panic.user "dimensions don't match")
  else do
    let v ← NewVector (v1.len : Int)
    forRange v1.len 0 (fun i _ => do
      let x ← get v1 i
      let y ← get v2 i
      set v i (F64.add x y)) ()
    pure v

/-- Go `Sub`. -/
def Sub (v1 v2 : Slice) : M Slice :=
  if v1.len ≠ v2.len then panic (Panic.user "dimensions don't match")
  else do
    let v ← NewVector (v1.len : Int)
    forRange v1.len 0 (fun i _ => do
      let x ← get v1 i
      let y ← get v2 i
      set v i (F64.sub x y)) ()
    pure v

/-- Go `Mul`. -/
def Mul (v1 : Slice) (f : F64) : M Slice := do
  let v ← NewVector (v1.len : Int)
  forRange v1.len 0 (fun i _ => do
    let x ← get v1 i
    set v i (F64.mul x f)) ()
  pure v

/-- Go `Dot`. -/
def Dot (v1 v2 : Slice) : M F64 :=
  if v1.len ≠ v2.len then panic (Panic.user "dimensions don't match")
  else
    forRange v1.len 0 (fun i s => do
      let x ← get v1 i
      let y ← get v2 i
      pure (F64.add s (F64.mul x y))) F64.zero

/-- Go `Cross`. -/
def Cross (v1 v2 : Slice) : M Slice :=
  if v1.len ≠ 3 ∨ v2.len ≠ 3 then
    panic (Panic.user "cross product: both vectors must be 3-dimentional")
  else do
    let a1 ← get v1 1
    let b2 ← get v2 2
    let a2 ← get v1 2
    let b1 ← get v2 1
    let a2r ← get v1 2
    let b0 ← get v2 0
    let a0 ← get v1 0
    let b2r ← get v2 2
    let a0r ← get v1 0
    let b1r ← get v2 1
    let a1r ← get v1 1
    let b0r ← get v2 0
    literal [F64.sub (F64.mul a1 b2) (F64.mul a2 b1),
             F64.sub (F64.mul a2r b0) (F64.mul a0 b2r),
             F64.sub (F64.mul a0r b1r) (F64.mul a1r b0r)]

/-- Go `Norm`. -/
def Norm (v1 : Slice) : M F64 := do
  let s ← forRange v1.len 0 (fun i s => do
    let x ← get v1 i
    pure (F64.add s (F64.mul x x))) F64.zero
  pure (F64.sqrt s)

/-- The components of the vector `v` on the heap `h`, in order. -/
def contents (h : Heap) (v : Slice) : Vector :=
  ((h.getD v.arr []).drop v.off).take v.len

/-- The slice header `v` points into an allocated array of `h` and stays within
it. -/
def WellFormed (h : Heap) (v : Slice) : Prop :=
  v.arr < h.length ∧ v.off + v.len ≤ (h.getD v.arr []).length

/-- Running `m` from a heap with at least `n0` arrays leaves the first `n0`
arrays as they were, whether `m` returns or panics, and a returned value
satisfies `P`. -/
def Keeps {α : Type} (n0 : Nat) (m : M α) (P : α → Prop) : Prop :=
  ∀ h : Heap, n0 ≤ h.length →
    n0 ≤ (m h).2.length ∧ (∀ id, id < n0 → (m h).2[id]? = h[id]?) ∧
      ∀ a, (m h).1 = .ok a → P a

/-- The call `m` on heap `h` mutates nothing that existed before it: every vector
whose backing array was allocated before the call has, after the call (returned
or panicked), the components it had before. -/
def Frame {α : Type} (m : M α) (h : Heap) : Prop :=
  ∀ (v : Slice) (i : Nat), v.arr < h.length → (get v i (m h).2).1 = (get v i h).1

/-- The vector returned by the call `m` on heap `h`, if any, lives in a backing
array allocated during the call. -/
def Fresh (m : M Slice) (h : Heap) : Prop :=
  ∀ v : Slice, (m h).1 = .ok v → h.length ≤ v.arr

end Mem

/-! ## Lemmas on slices and loops -/

theorem index_of_lt (v : Vector) (i : Nat) (h : i < v.length) :
    index v i = .ok (v.getD i F64.zero) := by
  unfold index
  rw [List.getD_eq_getElem?_getD, List.getElem?_eq_getElem h]
  rfl

theorem store_of_lt (v : Vector) (i : Nat) (x : F64) (h : i < v.length) :
    store v i x = .ok (v.set i x) := by
  unfold store
  rw [if_pos h]

theorem NewVector_len (n : Nat) :
    NewVectorLen n = .ok (List.replicate n F64.zero) := rfl

/-- Within the allocation limit, `NewVector` at a length is `NewVectorLen`. -/
theorem NewVector_eq_NewVectorLen (n : Nat) (h : 8 * (n : Int) ≤ maxAlloc) :
    NewVector (n : Int) = NewVectorLen n := by
  unfold NewVector NewVectorLen
  rw [if_neg (by omega), Int.toNat_ofNat]

theorem getD_of_getElem? (v : Vector) (i : Nat) (x : F64) (h : v[i]? = some x) :
    v.getD i F64.zero = x := by
  rw [List.getD_eq_getElem?_getD, h]
  rfl

/-- A loop whose body stores `h j` at index `j` fills the indices it visits
and leaves the others alone. -/
theorem forRange_store (n : Nat) (h : Nat → F64)
    (body : Nat → Vector → Except Panic Vector)
    (hb : ∀ j (w : Vector), j < n → w.length = n → body j w = .ok (w.set j (h j))) :
    ∀ (k i : Nat) (v : Vector), i + k = n → v.length = n →
      ∃ v1 : Vector, forRange k i body v = .ok v1 ∧ v1.length = n ∧
        (∀ j, j < i → v1[j]? = v[j]?) ∧
        (∀ j, i ≤ j → j < n → v1[j]? = some (h j)) := by
  intro k
  induction k with
  | zero =>
    intro i v hi hv
    refine ⟨v, rfl, hv, fun _ _ => rfl, ?_⟩
    intro j h1 h2
    omega
  | succ k ih =>
    intro i v hi hv
    have hlt : i < n := by omega
    obtain ⟨v1, h1, h2, h3, h4⟩ :=
      ih (i + 1) (v.set i (h i)) (by omega) (by rw [List.length_set]; exact hv)
    refine ⟨v1, ?_, h2, ?_, ?_⟩
    · rw [forRange, hb i v hlt hv]
      exact h1
    · intro j hj
      rw [h3 j (by omega), List.getElem?_set_ne (by omega)]
    · intro j hj1 hj2
      by_cases hji : j = i
      · subst hji
        rw [h3 j (by omega), List.getElem?_set_self (by omega)]
      · exact h4 j (by omega) hj2

/-- A loop whose body accumulates `g s (h j)` computes the left fold of `g` over
`h lo, ..., h (lo+k-1)`. -/
theorem forRange_fold (n : Nat) (h : Nat → F64) (g : F64 → F64 → F64)
    (body : Nat → F64 → Except Panic F64)
    (hb : ∀ j (s : F64), j < n → body j s = .ok (g s (h j))) :
    ∀ (k i : Nat) (s : F64), i + k = n →
      forRange k i body s = .ok (((List.range' i k).map h).foldl g s) := by
  intro k
  induction k with
  | zero =>
    intro i s _
    rfl
  | succ k ih =>
    intro i s hi
    rw [forRange, hb i s (by omega)]
    show forRange k (i + 1) body (g s (h i)) = _
    rw [ih (i + 1) (g s (h i)) (by omega)]
    rfl

/-! ## What each operation computes -/

/-- The loop shared by `Add` and `Sub`: `v[i] = op(v1[i], v2[i])` for every
index, on a fresh zero vector. -/
theorem pointwise_ok (op : F64 → F64 → F64) (a b : Vector) (h : a.length = b.length) :
    ∃ v : Vector,
      forRange a.length 0 (fun i v => do
        let x ← index a i
        let y ← index b i
        store v i (op x y)) (List.replicate a.length F64.zero) = .ok v ∧
      v.length = a.length ∧
      ∀ j, j < a.length →
        v[j]? = some (op (a.getD j F64.zero) (b.getD j F64.zero)) := by
  obtain ⟨v1, h1, h2, _, h4⟩ :=
    forRange_store a.length (fun j => op (a.getD j F64.zero) (b.getD j F64.zero))
      (fun i v => do
        let x ← index a i
        let y ← index b i
        store v i (op x y))
      (by
        intro j w hj hw
        show (index a j >>= fun x => index b j >>= fun y => store w j (op x y)) = _
        rw [index_of_lt a j hj, index_of_lt b j (h ▸ hj)]
        exact store_of_lt w j _ (hw ▸ hj))
      a.length 0 (List.replicate a.length F64.zero) (by omega) (by simp)
  exact ⟨v1, h1, h2, fun j hj => h4 j (Nat.zero_le _) hj⟩

theorem Add_ok (a b : Vector) (h : a.length = b.length) :
    ∃ v : Vector, Add a b = .ok v ∧ v.length = a.length ∧
      ∀ j, j < a.length →
        v[j]? = some (F64.add (a.getD j F64.zero) (b.getD j F64.zero)) := by
  obtain ⟨v, h1, h2, h3⟩ := pointwise_ok F64.add a b h
  refine ⟨v, ?_, h2, h3⟩
  unfold Add
  rw [if_neg (by simpa using h), NewVector_len]
  exact h1

theorem Sub_ok (a b : Vector) (h : a.length = b.length) :
    ∃ v : Vector, Sub a b = .ok v ∧ v.length = a.length ∧
      ∀ j, j < a.length →
        v[j]? = some (F64.sub (a.getD j F64.zero) (b.getD j F64.zero)) := by
  obtain ⟨v, h1, h2, h3⟩ := pointwise_ok F64.sub a b h
  refine ⟨v, ?_, h2, h3⟩
  unfold Sub
  rw [if_neg (by simpa using h), NewVector_len]
  exact h1

theorem Mul_ok (a : Vector) (f : F64) :
    ∃ v : Vector, Mul a f = .ok v ∧ v.length = a.length ∧
      ∀ j, j < a.length → v[j]? = some (F64.mul (a.getD j F64.zero) f) := by
  obtain ⟨v1, h1, h2, _, h4⟩ :=
    forRange_store a.length (fun j => F64.mul (a.getD j F64.zero) f)
      (fun i v => do
        let x ← index a i
        store v i (F64.mul x f))
      (by
        intro j w hj hw
        show (index a j >>= fun x => store w j (F64.mul x f)) = _
        rw [index_of_lt a j hj]
        exact store_of_lt w j _ (hw ▸ hj))
      a.length 0 (List.replicate a.length F64.zero) (by omega) (by simp)
  refine ⟨v1, ?_, h2, fun j hj => h4 j (Nat.zero_le _) hj⟩
  unfold Mul
  rw [NewVector_len]
  exact h1

/-- The products `a[0]*b[0], a[1]*b[1], ...` listed by index are the products
of the zipped components. -/
theorem map_range_products (a b : Vector) (h : a.length = b.length) :
    (List.range' 0 a.length).map
        (fun j => F64.mul (a.getD j F64.zero) (b.getD j F64.zero)) =
      (List.zip a b).map (fun p => F64.mul p.1 p.2) := by
  apply List.ext_getElem?
  intro i
  by_cases hi : i < a.length
  · have hb : i < b.length := h ▸ hi
    simp [List.getElem?_map, List.getElem?_range', List.getElem?_zip_eq_some, hi, hb,
      List.getElem?_eq_getElem, List.getD_eq_getElem?_getD]
  · have hb : ¬ i < b.length := h ▸ hi
    rw [List.getElem?_eq_none (by simp; omega), List.getElem?_eq_none (by simp; omega)]

theorem Dot_ok (a b : Vector) (h : a.length = b.length) :
    Dot a b = .ok (((List.zip a b).map (fun p => F64.mul p.1 p.2)).foldl F64.add F64.zero) := by
  unfold Dot
  rw [if_neg (by simpa using h), ← map_range_products a b h]
  exact forRange_fold a.length (fun j => F64.mul (a.getD j F64.zero) (b.getD j F64.zero))
    F64.add _
    (by
      intro j s hj
      show (index a j >>= fun x => index b j >>= fun y =>
        pure (F64.add s (F64.mul x y))) = _
      rw [index_of_lt a j hj, index_of_lt b j (h ▸ hj)]
      rfl)
    a.length 0 F64.zero (by omega)

theorem Norm_ok (a : Vector) :
    Norm a = .ok (F64.sqrt ((a.map (fun x => F64.mul x x)).foldl F64.add F64.zero)) := by
  have hm : (List.range' 0 a.length).map
      (fun j => F64.mul (a.getD j F64.zero) (a.getD j F64.zero)) =
      a.map (fun x => F64.mul x x) := by
    apply List.ext_getElem?
    intro i
    by_cases hi : i < a.length
    · simp [List.getElem?_map, List.getElem?_range', hi, List.getElem?_eq_getElem,
        List.getD_eq_getElem?_getD]
    · rw [List.getElem?_eq_none (by simp; omega), List.getElem?_eq_none (by simp; omega)]
  unfold Norm
  rw [forRange_fold a.length (fun j => F64.mul (a.getD j F64.zero) (a.getD j F64.zero))
    F64.add _
    (by
      intro j s hj
      show (index a j >>= fun x => pure (F64.add s (F64.mul x x))) = _
      rw [index_of_lt a j hj]
      rfl)
    a.length 0 F64.zero (by omega), hm]
  rfl

theorem Cross_ok (a0 a1 a2 b0 b1 b2 : F64) :
    Cross [a0, a1, a2] [b0, b1, b2] =
      .ok [F64.sub (F64.mul a1 b2) (F64.mul a2 b1),
           F64.sub (F64.mul a2 b0) (F64.mul a0 b2),
           F64.sub (F64.mul a0 b1) (F64.mul a1 b0)] := rfl

theorem length_three (a : Vector) (h : a.length = 3) :
    ∃ x y z, a = [x, y, z] := by
  match a, h with
  | [x, y, z], _ => exact ⟨x, y, z, rfl⟩

theorem Add_mismatch (a b : Vector) (h : a.length ≠ b.length) :
    Add a b = .error (Panic.user "dimensions don't match") := by
  unfold Add
  rw [if_pos h]

theorem Sub_mismatch (a b : Vector) (h : a.length ≠ b.length) :
    Sub a b = .error (Panic.user "dimensions don't match") := by
  unfold Sub
  rw [if_pos h]

theorem Dot_mismatch (a b : Vector) (h : a.length ≠ b.length) :
    Dot a b = .error (Panic.user "dimensions don't match") := by
  unfold Dot
  rw [if_pos h]

theorem Cross_mismatch (a b : Vector) (h : a.length ≠ 3 ∨ b.length ≠ 3) :
    Cross a b = .error (Panic.user "cross product: both vectors must be 3-dimentional") := by
  unfold Cross
  rw [if_pos h]

/-- A call either panics with `msg` exactly when `bad` holds, or returns exactly
when it does not, once it is known to panic with `msg` under `bad` and to
return otherwise. -/
theorem panic_iff_of_cases {α : Type} (r : Except Panic α) (msg : String) (bad : Prop)
    (h1 : bad → r = .error (Panic.user msg)) (h2 : ¬ bad → ∃ v, r = .ok v) :
    (r = .error (Panic.user msg) ↔ bad) ∧ ((∃ v, r = .ok v) ↔ ¬ bad) := by
  by_cases hb : bad
  · have hr := h1 hb
    refine ⟨⟨fun _ => hb, fun _ => hr⟩, ⟨fun ⟨v, hv⟩ => ?_, fun h => absurd hb h⟩⟩
    rw [hr] at hv
    cases hv
  · obtain ⟨v, hv⟩ := h2 hb
    refine ⟨⟨fun h => ?_, fun h => absurd h hb⟩, ⟨fun _ => hb, fun _ => ⟨v, hv⟩⟩⟩
    rw [hv] at h
    cases h

/-! ## The claims -/

set_option maxRecDepth 100000
set_option exponentiation.threshold 4096

/-- C1: each of `a.Add(b)`, `a.Sub(b)` and `a.Dot(b)` panics with the message
"dimensions don't match" if and only if `len(a) != len(b)`, and returns a value
if and only if the lengths are equal. -/
theorem binary_ops_panic_iff_length_mismatch (a b : Vector) :
    ((Add a b = .error (Panic.user "dimensions don't match") ↔ a.length ≠ b.length) ∧
      ((∃ v, Add a b = .ok v) ↔ a.length = b.length)) ∧
    ((Sub a b = .error (Panic.user "dimensions don't match") ↔ a.length ≠ b.length) ∧
      ((∃ v, Sub a b = .ok v) ↔ a.length = b.length)) ∧
    ((Dot a b = .error (Panic.user "dimensions don't match") ↔ a.length ≠ b.length) ∧
      ((∃ s, Dot a b = .ok s) ↔ a.length = b.length)) := by
  have ha := panic_iff_of_cases (Add a b) "dimensions don't match" (a.length ≠ b.length)
    (Add_mismatch a b)
    (fun h => (Add_ok a b (not_not.mp h)).imp fun _ hv => hv.1)
  have hs := panic_iff_of_cases (Sub a b) "dimensions don't match" (a.length ≠ b.length)
    (Sub_mismatch a b)
    (fun h => (Sub_ok a b (not_not.mp h)).imp fun _ hv => hv.1)
  have hd := panic_iff_of_cases (Dot a b) "dimensions don't match" (a.length ≠ b.length)
    (Dot_mismatch a b)
    (fun h => ⟨_, Dot_ok a b (not_not.mp h)⟩)
  simp only [ne_eq, not_not] at ha hs hd
  exact ⟨ha, hs, hd⟩

/-- Witness for C1 at dimensions 2 and 3: `[1,2]` against `[3,4,5]` panics in all
three operations, `[1,2]` against `[3,4]` returns in all three. -/
theorem binary_ops_panic_iff_length_mismatch_witness :
    (Add (lit [1, 2]) (lit [3, 4, 5]) = .error (Panic.user "dimensions don't match") ∧
      Sub (lit [1, 2]) (lit [3, 4, 5]) = .error (Panic.user "dimensions don't match") ∧
      Dot (lit [1, 2]) (lit [3, 4, 5]) = .error (Panic.user "dimensions don't match")) ∧
    ((∃ v, Add (lit [1, 2]) (lit [3, 4]) = .ok v) ∧
      (∃ v, Sub (lit [1, 2]) (lit [3, 4]) = .ok v) ∧
      (∃ s, Dot (lit [1, 2]) (lit [3, 4]) = .ok s)) :=
  ⟨⟨(binary_ops_panic_iff_length_mismatch (lit [1, 2]) (lit [3, 4, 5])).1.1.mpr (by decide),
    (binary_ops_panic_iff_length_mismatch (lit [1, 2]) (lit [3, 4, 5])).2.1.1.mpr (by decide),
    (binary_ops_panic_iff_length_mismatch (lit [1, 2]) (lit [3, 4, 5])).2.2.1.mpr (by decide)⟩,
   ⟨(binary_ops_panic_iff_length_mismatch (lit [1, 2]) (lit [3, 4])).1.2.mpr (by decide),
    (binary_ops_panic_iff_length_mismatch (lit [1, 2]) (lit [3, 4])).2.1.2.mpr (by decide),
    (binary_ops_panic_iff_length_mismatch (lit [1, 2]) (lit [3, 4])).2.2.2.mpr (by decide)⟩⟩

/-- C2: `a.Cross(b)` panics with its own message, different from the one of
`Add`/`Sub`/`Dot`, if and only if not both lengths are 3; it returns a value if
and only if both lengths are 3; so it panics for two vectors of one equal length
other than 3. -/
theorem Cross_panics_iff_not_both_three (a b : Vector) :
    (Cross a b = .error (Panic.user "cross product: both vectors must be 3-dimentional") ↔
      ¬ (a.length = 3 ∧ b.length = 3)) ∧
    ((∃ v, Cross a b = .ok v) ↔ (a.length = 3 ∧ b.length = 3)) ∧
    ("cross product: both vectors must be 3-dimentional" ≠ "dimensions don't match") ∧
    (a.length = b.length → a.length ≠ 3 →
      Cross a b = .error (Panic.user "cross product: both vectors must be 3-dimentional")) := by
  have hc := panic_iff_of_cases (Cross a b)
    "cross product: both vectors must be 3-dimentional" (a.length ≠ 3 ∨ b.length ≠ 3)
    (Cross_mismatch a b)
    (fun h => by
      have h3 : a.length = 3 ∧ b.length = 3 := by
        constructor
        · exact not_not.mp fun h1 => h (Or.inl h1)
        · exact not_not.mp fun h1 => h (Or.inr h1)
      obtain ⟨x, y, z, rfl⟩ := length_three a h3.1
      obtain ⟨u, v, w, rfl⟩ := length_three b h3.2
      exact ⟨_, Cross_ok x y z u v w⟩)
  have he : (a.length ≠ 3 ∨ b.length ≠ 3) ↔ ¬ (a.length = 3 ∧ b.length = 3) := by
    constructor
    · rintro (h | h) ⟨h1, h2⟩
      · exact h h1
      · exact h h2
    · intro h
      by_cases h1 : a.length = 3
      · exact Or.inr fun h2 => h ⟨h1, h2⟩
      · exact Or.inl h1
  refine ⟨hc.1.trans he, ?_, by decide, fun _ h3 => Cross_mismatch a b (Or.inl h3)⟩
  rw [hc.2, he, not_not]

/-- Witness for C2: `[1,2].Cross([3,4])`, two vectors of equal length 2, panics
with the cross-product message. -/
theorem Cross_panics_iff_not_both_three_witness :
    (lit [1, 2]).length = (lit [3, 4]).length ∧ (lit [1, 2]).length ≠ 3 ∧
    Cross (lit [1, 2]) (lit [3, 4]) =
      .error (Panic.user "cross product: both vectors must be 3-dimentional") :=
  ⟨by decide, by decide,
    (Cross_panics_iff_not_both_three (lit [1, 2]) (lit [3, 4])).2.2.2 (by decide) (by decide)⟩

/-- C3: for `len(a) = len(b)`, `a.Add(b)` returns a vector of the same length
whose `i`-th component is `a[i] + b[i]` at every index `i < len(a)`. -/
theorem Add_componentwise (a b : Vector) (h : a.length = b.length) :
    ∃ v : Vector, Add a b = .ok v ∧ v.length = a.length ∧
      ∀ (i : Nat) (x y : F64), a[i]? = some x → b[i]? = some y →
        v[i]? = some (F64.add x y) := by
  obtain ⟨v, h1, h2, h3⟩ := Add_ok a b h
  refine ⟨v, h1, h2, ?_⟩
  intro i x y hx hy
  have hi : i < a.length := (List.getElem?_eq_some.mp hx).1
  rw [h3 i hi, getD_of_getElem? a i x hx, getD_of_getElem? b i y hy]

/-- Witness for C3: `[1,2].Add([3,4]) = [4,6]`. -/
theorem Add_componentwise_witness :
    (lit [1, 2]).length = (lit [3, 4]).length ∧
    (∃ v : Vector, Add (lit [1, 2]) (lit [3, 4]) = .ok v ∧ v.length = (lit [1, 2]).length ∧
      ∀ (i : Nat) (x y : F64), (lit [1, 2])[i]? = some x → (lit [3, 4])[i]? = some y →
        v[i]? = some (F64.add x y)) ∧
    Add (lit [1, 2]) (lit [3, 4]) = .ok (lit [4, 6]) :=
  ⟨by decide, Add_componentwise (lit [1, 2]) (lit [3, 4]) (by decide), by rfl⟩

/-- C4: for `len(a) = len(b)`, `a.Sub(b)` returns a vector of the same length
whose `i`-th component is `a[i] - b[i]`, receiver minus argument, at every index
`i < len(a)`. -/
theorem Sub_componentwise (a b : Vector) (h : a.length = b.length) :
    ∃ v : Vector, Sub a b = .ok v ∧ v.length = a.length ∧
      ∀ (i : Nat) (x y : F64), a[i]? = some x → b[i]? = some y →
        v[i]? = some (F64.sub x y) := by
  obtain ⟨v, h1, h2, h3⟩ := Sub_ok a b h
  refine ⟨v, h1, h2, ?_⟩
  intro i x y hx hy
  have hi : i < a.length := (List.getElem?_eq_some.mp hx).1
  rw [h3 i hi, getD_of_getElem? a i x hx, getD_of_getElem? b i y hy]

/-- Witness for C4: `[1,2].Sub([3,4]) = [-2,-2]`. -/
theorem Sub_componentwise_witness :
    (lit [1, 2]).length = (lit [3, 4]).length ∧
    (∃ v : Vector, Sub (lit [1, 2]) (lit [3, 4]) = .ok v ∧ v.length = (lit [1, 2]).length ∧
      ∀ (i : Nat) (x y : F64), (lit [1, 2])[i]? = some x → (lit [3, 4])[i]? = some y →
        v[i]? = some (F64.sub x y)) ∧
    Sub (lit [1, 2]) (lit [3, 4]) = .ok (lit [-2, -2]) :=
  ⟨by decide, Sub_componentwise (lit [1, 2]) (lit [3, 4]) (by decide), by rfl⟩

/-- C5: for every vector `a`, the empty one included, and every scalar `f`,
`a.Mul(f)` returns (it never panics) a vector of the same length whose `i`-th
component is `a[i] * f` at every index `i < len(a)`. -/
theorem Mul_componentwise (a : Vector) (f : F64) :
    ∃ v : Vector, Mul a f = .ok v ∧ v.length = a.length ∧
      ∀ (i : Nat) (x : F64), a[i]? = some x → v[i]? = some (F64.mul x f) := by
  obtain ⟨v, h1, h2, h3⟩ := Mul_ok a f
  refine ⟨v, h1, h2, ?_⟩
  intro i x hx
  have hi : i < a.length := (List.getElem?_eq_some.mp hx).1
  rw [h3 i hi, getD_of_getElem? a i x hx]

/-- Witness for C5: `[1,2].Mul(2) = [2,4]`, and the empty vector scales to the
empty vector. -/
theorem Mul_componentwise_witness :
    (∃ v : Vector, Mul (lit [1, 2]) (F64.ofInt 2) = .ok v ∧ v.length = (lit [1, 2]).length ∧
      ∀ (i : Nat) (x : F64), (lit [1, 2])[i]? = some x →
        v[i]? = some (F64.mul x (F64.ofInt 2))) ∧
    Mul (lit [1, 2]) (F64.ofInt 2) = .ok (lit [2, 4]) ∧
    Mul [] (F64.ofInt 2) = .ok [] :=
  ⟨Mul_componentwise (lit [1, 2]) (F64.ofInt 2), by rfl, by rfl⟩

/-- C6: for `len(a) = len(b)`, `a.Dot(b)` is the sum of the products
`a[i] * b[i]` accumulated from `0.0` in increasing index order; for two empty
vectors it is `0.0`. -/
theorem Dot_is_sum_of_products (a b : Vector) (h : a.length = b.length) :
    Dot a b =
      .ok (((List.zip a b).map (fun p => F64.mul p.1 p.2)).foldl F64.add F64.zero) ∧
    Dot [] [] = .ok F64.zero :=
  ⟨Dot_ok a b h, rfl⟩

/-- Witness for C6: `[1,2].Dot([3,4]) = 11`. -/
theorem Dot_is_sum_of_products_witness :
    (lit [1, 2]).length = (lit [3, 4]).length ∧
    (Dot (lit [1, 2]) (lit [3, 4]) =
        .ok (((List.zip (lit [1, 2]) (lit [3, 4])).map
          (fun p => F64.mul p.1 p.2)).foldl F64.add F64.zero) ∧
      Dot [] [] = .ok F64.zero) ∧
    Dot (lit [1, 2]) (lit [3, 4]) = .ok (F64.ofInt 11) :=
  ⟨by decide, Dot_is_sum_of_products (lit [1, 2]) (lit [3, 4]) (by decide), by rfl⟩

/-- C7: for `a` and `b` both of length 3, with components `a0 a1 a2` and
`b0 b1 b2`, `a.Cross(b)` returns the length-3 vector
`[a1*b2 - a2*b1, a2*b0 - a0*b2, a0*b1 - a1*b0]`. -/
theorem Cross_formula (a b : Vector) (ha : a.length = 3) (hb : b.length = 3) :
    ∃ a0 a1 a2 b0 b1 b2 : F64, a = [a0, a1, a2] ∧ b = [b0, b1, b2] ∧
      ∃ v : Vector, Cross a b = .ok v ∧ v.length = 3 ∧
        v = [F64.sub (F64.mul a1 b2) (F64.mul a2 b1),
             F64.sub (F64.mul a2 b0) (F64.mul a0 b2),
             F64.sub (F64.mul a0 b1) (F64.mul a1 b0)] := by
  obtain ⟨a0, a1, a2, rfl⟩ := length_three a ha
  obtain ⟨b0, b1, b2, rfl⟩ := length_three b hb
  exact ⟨a0, a1, a2, b0, b1, b2, rfl, rfl, _, Cross_ok a0 a1 a2 b0 b1 b2, rfl, rfl⟩

/-- Witness for C7: `[1,2,3].Cross([3,4,5]) = [-2,4,-2]`. -/
theorem Cross_formula_witness :
    (lit [1, 2, 3]).length = 3 ∧ (lit [3, 4, 5]).length = 3 ∧
    (∃ a0 a1 a2 b0 b1 b2 : F64, lit [1, 2, 3] = [a0, a1, a2] ∧ lit [3, 4, 5] = [b0, b1, b2] ∧
      ∃ v : Vector, Cross (lit [1, 2, 3]) (lit [3, 4, 5]) = .ok v ∧ v.length = 3 ∧
        v = [F64.sub (F64.mul a1 b2) (F64.mul a2 b1),
             F64.sub (F64.mul a2 b0) (F64.mul a0 b2),
             F64.sub (F64.mul a0 b1) (F64.mul a1 b0)]) ∧
    Cross (lit [1, 2, 3]) (lit [3, 4, 5]) = .ok (lit [-2, 4, -2]) :=
  ⟨by decide, by decide, Cross_formula (lit [1, 2, 3]) (lit [3, 4, 5]) (by decide) (by decide),
    by rfl⟩

/-- C8: for every vector `a`, `a.Norm()` returns (it never panics) the square
root of the sum of the squares `a[i] * a[i]`, accumulated from `0.0` in
increasing index order; the norm of the empty vector is `0.0`, and
`[3,4].Norm() = 5`. -/
theorem Norm_is_sqrt_of_sum_of_squares (a : Vector) :
    Norm a = .ok (F64.sqrt ((a.map (fun x => F64.mul x x)).foldl F64.add F64.zero)) ∧
    Norm [] = .ok F64.zero ∧
    Norm (lit [3, 4]) = .ok (F64.ofInt 5) :=
  ⟨Norm_ok a, by rfl, by rfl⟩

/-- C9, as stated, fails: `2^62` is a non-negative `int`, and `NewVector(2^62)`
panics in `make` with "makeslice: len out of range", since `8 * 2^62` bytes
exceed the allocation limit. -/
theorem NewVector_beyond_limit_panics :
    (0 : Int) ≤ 2 ^ 62 ∧ NewVector (2 ^ 62) = .error Panic.makesliceLen ∧
    ¬ ∃ v : Vector, NewVector (2 ^ 62) = .ok v := by
  refine ⟨by decide, by rfl, ?_⟩
  rintro ⟨v, hv⟩
  have h : NewVector (2 ^ 62) = .error Panic.makesliceLen := by rfl
  rw [h] at hv
  cases hv

/-- C9, amended: for every integer `n ≥ 0` within the allocation limit
(`8 * n ≤ maxAlloc`, that is `n ≤ 2^45`), `NewVector(n)` returns (it does not
panic) a vector of length exactly `n` whose every component is `0.0`;
`NewVector(0)` is the empty vector; beyond the limit, as below zero,
`NewVector(n)` panics in `make`. -/
theorem NewVector_zero_filled (n : Int) (h : 0 ≤ n) (hlim : 8 * n ≤ maxAlloc) :
    (∃ v : Vector, NewVector n = .ok v ∧ (v.length : Int) = n ∧
      ∀ x ∈ v, x = F64.zero) ∧
    NewVector 0 = .ok [] ∧
    (∀ k : Int, k < 0 ∨ 8 * k > maxAlloc → NewVector k = .error Panic.makesliceLen) := by
  refine ⟨⟨List.replicate n.toNat F64.zero, ?_, ?_, ?_⟩, rfl, ?_⟩
  · unfold NewVector
    rw [if_neg (by omega)]
  · rw [List.length_replicate]
    exact Int.toNat_of_nonneg h
  · intro x hx
    exact List.eq_of_mem_replicate hx
  · intro k hk
    unfold NewVector
    rw [if_pos hk]

/-- Witness for the amended C9: `len(NewVector(9)) = 9`, and the largest length
within the limit is `2^45`. -/
theorem NewVector_zero_filled_witness :
    (0 : Int) ≤ 9 ∧ 8 * (9 : Int) ≤ maxAlloc ∧
    ((∃ v : Vector, NewVector 9 = .ok v ∧ (v.length : Int) = 9 ∧
      ∀ x ∈ v, x = F64.zero) ∧
    NewVector 0 = .ok [] ∧
    (∀ k : Int, k < 0 ∨ 8 * k > maxAlloc → NewVector k = .error Panic.makesliceLen)) ∧
    8 * (2 : Int) ^ 45 = maxAlloc :=
  ⟨by decide, by decide, NewVector_zero_filled 9 (by decide) (by decide), by decide⟩

/-- C10, as stated, fails: on two empty vectors `Cross` panics with the
cross-product dimension message, so it does not complete. -/
theorem zero_dimension_Cross_panics :
    ([] : Vector).length = 0 ∧
    Cross [] [] = .error (Panic.user "cross product: both vectors must be 3-dimentional") ∧
    ¬ ∃ v : Vector, Cross [] [] = .ok v := by
  refine ⟨rfl, rfl, ?_⟩
  rintro ⟨v, hv⟩
  cases hv

/-- C10, amended: for empty vectors `a`, `b` and every scalar `k`, each of
`a.Add(b)`, `a.Sub(b)`, `a.Dot(b)`, `a.Mul(k)` and `a.Norm()` returns without a
panic (the empty vector, or `0.0`); `a.Cross(b)` panics with the cross-product
dimension message, since it needs both lengths to be 3. -/
theorem zero_dimension_ops (a b : Vector) (k : F64) (ha : a.length = 0) (hb : b.length = 0) :
    Add a b = .ok [] ∧ Sub a b = .ok [] ∧ Dot a b = .ok F64.zero ∧
    Mul a k = .ok [] ∧ Norm a = .ok F64.zero ∧
    Cross a b = .error (Panic.user "cross product: both vectors must be 3-dimentional") := by
  have ha1 : a = [] := List.length_eq_zero.mp ha
  have hb1 : b = [] := List.length_eq_zero.mp hb
  subst ha1
  subst hb1
  exact ⟨rfl, rfl, rfl, rfl, rfl, rfl⟩

/-- Witness for the amended C10, at the two empty vectors and the scalar 2. -/
theorem zero_dimension_ops_witness :
    ([] : Vector).length = 0 ∧
    Add [] [] = .ok [] ∧ Sub [] [] = .ok [] ∧ Dot [] [] = .ok F64.zero ∧
    Mul [] (F64.ofInt 2) = .ok [] ∧ Norm [] = .ok F64.zero ∧
    Cross [] [] = .error (Panic.user "cross product: both vectors must be 3-dimentional") :=
  ⟨rfl, zero_dimension_ops [] [] (F64.ofInt 2) rfl rfl⟩

/-! ## Algebra of the float64 operations -/

theorem F64.add_comm (x y : F64) : F64.add x y = F64.add y x := by
  cases x <;> cases y <;> simp only [F64.add]
  · rename_i s t
    by_cases h : s = t
    · subst h
      rfl
    · rw [if_neg h, if_neg (fun h1 => h h1.symm)]
  · rename_i s m e t n f
    rw [min_comm e f, Int.add_comm, Bool.and_comm]

theorem F64.mul_comm (x y : F64) : F64.mul x y = F64.mul y x := by
  cases x <;> cases y <;> simp only [F64.mul, Bool.xor_comm]
  · rename_i s m e t n f
    rw [Nat.mul_comm, Int.add_comm, Bool.xor_comm]

/-- A returned vector is determined by its length and its components. -/
theorem eq_zipWith_of_components (op : F64 → F64 → F64) (a b v : Vector)
    (h : a.length = b.length) (hl : v.length = a.length)
    (hc : ∀ j, j < a.length → v[j]? = some (op (a.getD j F64.zero) (b.getD j F64.zero))) :
    v = List.zipWith op a b := by
  apply List.ext_getElem?
  intro i
  by_cases hi : i < a.length
  · have hb : i < b.length := h ▸ hi
    rw [hc i hi]
    simp [List.getElem?_zipWith, List.getElem?_eq_getElem, hi, hb, List.getD_eq_getElem?_getD]
  · rw [List.getElem?_eq_none (by omega), List.getElem?_eq_none (by simp; omega)]

theorem Add_eq_zipWith (a b : Vector) (h : a.length = b.length) :
    Add a b = .ok (List.zipWith F64.add a b) := by
  obtain ⟨v, h1, h2, h3⟩ := Add_ok a b h
  rw [h1, eq_zipWith_of_components F64.add a b v h h2 h3]

theorem Sub_eq_zipWith (a b : Vector) (h : a.length = b.length) :
    Sub a b = .ok (List.zipWith F64.sub a b) := by
  obtain ⟨v, h1, h2, h3⟩ := Sub_ok a b h
  rw [h1, eq_zipWith_of_components F64.sub a b v h h2 h3]

theorem Mul_eq_map (a : Vector) (f : F64) :
    Mul a f = .ok (a.map (fun x => F64.mul x f)) := by
  obtain ⟨v, h1, h2, h3⟩ := Mul_ok a f
  rw [h1]
  congr 1
  apply List.ext_getElem?
  intro i
  by_cases hi : i < a.length
  · rw [h3 i hi]
    simp [List.getElem?_map, List.getElem?_eq_getElem, hi, List.getD_eq_getElem?_getD]
  · rw [List.getElem?_eq_none (by omega), List.getElem?_eq_none (by simp; omega)]

theorem map_zip_products : ∀ a b : Vector,
    (List.zip a b).map (fun p => F64.mul p.1 p.2) = List.zipWith F64.mul a b
  | [], _ => rfl
  | _ :: _, [] => rfl
  | x :: a, y :: b => by
    rw [List.zip_cons_cons, List.map_cons, List.zipWith_cons_cons, map_zip_products a b]

theorem Dot_eq_zipWith (a b : Vector) (h : a.length = b.length) :
    Dot a b = .ok ((List.zipWith F64.mul a b).foldl F64.add F64.zero) := by
  rw [Dot_ok a b h, map_zip_products]

theorem zipWith_comm_of (op : F64 → F64 → F64) (hop : ∀ x y, op x y = op y x) :
    ∀ a b : Vector, List.zipWith op a b = List.zipWith op b a
  | [], [] => rfl
  | [], _ :: _ => rfl
  | _ :: _, [] => rfl
  | x :: a, y :: b => by
    rw [List.zipWith_cons_cons, List.zipWith_cons_cons, hop x y, zipWith_comm_of op hop a b]

theorem zipWith_self_mul : ∀ a : Vector,
    List.zipWith F64.mul a a = a.map (fun x => F64.mul x x)
  | [] => rfl
  | x :: a => by
    rw [List.zipWith_cons_cons, List.map_cons, zipWith_self_mul a]

theorem foldl_add_zeros : ∀ n : Nat,
    (List.replicate n F64.zero).foldl F64.add F64.zero = F64.zero
  | 0 => rfl
  | n + 1 => by
    rw [List.replicate_succ, List.foldl_cons]
    exact foldl_add_zeros n

/-! ## The claims, continued -/

/-- C12: `a.Add(b)` and `b.Add(a)` are the same outcome: with different
lengths both panic with the same message, with equal lengths both return one
and the same vector, of the operands' length (so every component agrees). -/
theorem Add_commutative (a b : Vector) :
    Add a b = Add b a ∧
    (a.length ≠ b.length →
      Add a b = .error (Panic.user "dimensions don't match") ∧
      Add b a = .error (Panic.user "dimensions don't match")) ∧
    (a.length = b.length →
      ∃ v : Vector, Add a b = .ok v ∧ Add b a = .ok v ∧ v.length = a.length) := by
  have hmis : a.length ≠ b.length →
      Add a b = .error (Panic.user "dimensions don't match") ∧
      Add b a = .error (Panic.user "dimensions don't match") :=
    fun h => ⟨Add_mismatch a b h, Add_mismatch b a (fun h1 => h h1.symm)⟩
  have heq : a.length = b.length →
      ∃ v : Vector, Add a b = .ok v ∧ Add b a = .ok v ∧ v.length = a.length := by
    intro h
    refine ⟨List.zipWith F64.add a b, Add_eq_zipWith a b h, ?_, ?_⟩
    · rw [Add_eq_zipWith b a h.symm, zipWith_comm_of F64.add F64.add_comm b a]
    · rw [List.length_zipWith, ← h, Nat.min_self]
  refine ⟨?_, hmis, heq⟩
  by_cases h : a.length = b.length
  · obtain ⟨v, h1, h2, _⟩ := heq h
    rw [h1, h2]
  · obtain ⟨h1, h2⟩ := hmis h
    rw [h1, h2]

/-- Witness for C12: `[1,2].Add([3,4])` and `[3,4].Add([1,2])` both return
`[4,6]`; `[1,2]` and `[3,4,5]` panic in either order. -/
theorem Add_commutative_witness :
    (Add (lit [1, 2]) (lit [3, 4]) = .ok (lit [4, 6]) ∧
      Add (lit [3, 4]) (lit [1, 2]) = .ok (lit [4, 6])) ∧
    (∃ v : Vector, Add (lit [1, 2]) (lit [3, 4]) = .ok v ∧
      Add (lit [3, 4]) (lit [1, 2]) = .ok v ∧ v.length = (lit [1, 2]).length) ∧
    (Add (lit [1, 2]) (lit [3, 4, 5]) = .error (Panic.user "dimensions don't match") ∧
      Add (lit [3, 4, 5]) (lit [1, 2]) = .error (Panic.user "dimensions don't match")) :=
  ⟨⟨by rfl, by rfl⟩,
    (Add_commutative (lit [1, 2]) (lit [3, 4])).2.2 (by decide),
    (Add_commutative (lit [1, 2]) (lit [3, 4, 5])).2.1 (by decide)⟩

/-- C14: for `len(a) = len(b)`, `a.Dot(b)` and `b.Dot(a)` both return, and
return the same float64 value. -/
theorem Dot_commutative (a b : Vector) (h : a.length = b.length) :
    Dot a b = Dot b a ∧ ∃ s : F64, Dot a b = .ok s ∧ Dot b a = .ok s := by
  have hba : Dot b a = .ok ((List.zipWith F64.mul a b).foldl F64.add F64.zero) := by
    rw [Dot_eq_zipWith b a h.symm, zipWith_comm_of F64.mul F64.mul_comm b a]
  exact ⟨by rw [Dot_eq_zipWith a b h, hba], _, Dot_eq_zipWith a b h, hba⟩

/-- Witness for C14: `[1,2].Dot([3,4])` and `[3,4].Dot([1,2])` are both 11. -/
theorem Dot_commutative_witness :
    (lit [1, 2]).length = (lit [3, 4]).length ∧
    (Dot (lit [1, 2]) (lit [3, 4]) = Dot (lit [3, 4]) (lit [1, 2]) ∧
      ∃ s : F64, Dot (lit [1, 2]) (lit [3, 4]) = .ok s ∧
        Dot (lit [3, 4]) (lit [1, 2]) = .ok s) ∧
    Dot (lit [3, 4]) (lit [1, 2]) = .ok (F64.ofInt 11) :=
  ⟨by decide, Dot_commutative (lit [1, 2]) (lit [3, 4]) (by decide), by rfl⟩

/-- C17: for `a`, `b`, `c` of one common length, `a.Add(b)` returns a vector of
that length, so `a.Add(b).Dot(c)` returns too, and its value is the sum of the
`(a[i] + b[i]) * c[i]` accumulated from `0.0` in increasing index order. -/
theorem Add_then_Dot (a b c : Vector) (hab : a.length = b.length) (hac : a.length = c.length) :
    ∃ v : Vector, Add a b = .ok v ∧ v.length = c.length ∧
      Dot v c = .ok ((List.zipWith F64.mul (List.zipWith F64.add a b) c).foldl
        F64.add F64.zero) := by
  have hl : (List.zipWith F64.add a b).length = c.length := by
    rw [List.length_zipWith, ← hab, Nat.min_self, hac]
  exact ⟨_, Add_eq_zipWith a b hab, hl, Dot_eq_zipWith _ c hl⟩

/-- Witness for C17: `[1,2].Add([3,4]).Dot([5,6]) = 56`. -/
theorem Add_then_Dot_witness :
    (∃ v : Vector, Add (lit [1, 2]) (lit [3, 4]) = .ok v ∧ v.length = (lit [5, 6]).length ∧
      Dot v (lit [5, 6]) = .ok ((List.zipWith F64.mul
        (List.zipWith F64.add (lit [1, 2]) (lit [3, 4])) (lit [5, 6])).foldl
          F64.add F64.zero)) ∧
    (Add (lit [1, 2]) (lit [3, 4]) >>= fun v => Dot v (lit [5, 6])) = .ok (F64.ofInt 56) :=
  ⟨Add_then_Dot (lit [1, 2]) (lit [3, 4]) (lit [5, 6]) (by decide) (by decide), by rfl⟩

/-- The norm of `n` zeros is `0.0`, for every `n`. -/
theorem Norm_zeros (n : Nat) : Norm (List.replicate n F64.zero) = .ok F64.zero := by
  rw [Norm_ok, List.map_replicate]
  show Except.ok (F64.sqrt ((List.replicate n F64.zero).foldl F64.add F64.zero)) = _
  rw [foldl_add_zeros]
  rfl

/-- C18, as stated, fails: `2^62` is a non-negative `int`, and
`NewVector(2^62).Norm()` has no value, because `NewVector(2^62)` panics in
`make` before `Norm` is called. -/
theorem Norm_of_NewVector_beyond_limit :
    (0 : Int) ≤ 2 ^ 62 ∧ (NewVector (2 ^ 62) >>= Norm) = .error Panic.makesliceLen ∧
    ¬ ∃ s : F64, (NewVector (2 ^ 62) >>= Norm) = .ok s := by
  refine ⟨by decide, by rfl, ?_⟩
  rintro ⟨s, hs⟩
  have h : (NewVector (2 ^ 62) >>= Norm) = .error Panic.makesliceLen := by rfl
  rw [h] at hs
  cases hs

/-- C18, amended: the norm of a zero vector of any dimension is `0.0`; and for
every integer `n ≥ 0` within the allocation limit (`8 * n ≤ maxAlloc`),
`NewVector(n)` returns such a vector, so `NewVector(n).Norm()` is `0.0`. -/
theorem Norm_of_NewVector (n : Int) (h : 0 ≤ n) (hlim : 8 * n ≤ maxAlloc) :
    (∃ v : Vector, NewVector n = .ok v ∧ (v.length : Int) = n ∧ Norm v = .ok F64.zero) ∧
    (NewVector n >>= Norm) = .ok F64.zero ∧
    (∀ k : Nat, Norm (List.replicate k F64.zero) = .ok F64.zero) := by
  have hn : NewVector n = .ok (List.replicate n.toNat F64.zero) := by
    unfold NewVector
    rw [if_neg (by omega)]
  refine ⟨⟨_, hn, ?_, Norm_zeros _⟩, ?_, Norm_zeros⟩
  · rw [List.length_replicate]
    exact Int.toNat_of_nonneg h
  · rw [hn]
    exact Norm_zeros _

/-- Witness for the amended C18 at `n = 9`, and at `n = 0`. -/
theorem Norm_of_NewVector_witness :
    (0 : Int) ≤ 9 ∧ 8 * (9 : Int) ≤ maxAlloc ∧
    ((∃ v : Vector, NewVector 9 = .ok v ∧ (v.length : Int) = 9 ∧
        Norm v = .ok F64.zero) ∧
      (NewVector 9 >>= Norm) = .ok F64.zero ∧
      (∀ k : Nat, Norm (List.replicate k F64.zero) = .ok F64.zero)) ∧
    (NewVector 0 >>= Norm) = .ok F64.zero :=
  ⟨by decide, by decide, Norm_of_NewVector 9 (by decide) (by decide), by rfl⟩

/-- C20: for every vector `a`, `a.Dot(a)` returns (the lengths trivially agree)
and `a.Norm()` returns the square root of the very value `a.Dot(a)` returns:
both accumulate the products `a[i] * a[i]` from `0.0` in increasing index
order. -/
theorem Norm_is_sqrt_of_Dot_self (a : Vector) :
    ∃ s : F64, Dot a a = .ok s ∧ Norm a = .ok (F64.sqrt s) ∧
      s = (a.map (fun x => F64.mul x x)).foldl F64.add F64.zero := by
  refine ⟨_, ?_, Norm_ok a, rfl⟩
  rw [Dot_eq_zipWith a a rfl, zipWith_self_mul]

/-- Witness for C20: `[3,4].Dot([3,4])` is 25 and `[3,4].Norm()` is its square
root 5. -/
theorem Norm_is_sqrt_of_Dot_self_witness :
    (∃ s : F64, Dot (lit [3, 4]) (lit [3, 4]) = .ok s ∧
      Norm (lit [3, 4]) = .ok (F64.sqrt s) ∧
      s = ((lit [3, 4]).map (fun x => F64.mul x x)).foldl F64.add F64.zero) ∧
    Dot (lit [3, 4]) (lit [3, 4]) = .ok (F64.ofInt 25) ∧
    Norm (lit [3, 4]) = .ok (F64.ofInt 5) ∧
    F64.sqrt (F64.ofInt 25) = F64.ofInt 5 :=
  ⟨Norm_is_sqrt_of_Dot_self (lit [3, 4]), by rfl, by rfl, by decide⟩

/-! ## Rounding: digits, canonical form and exactness -/

theorem F64.bitLenAux_eq_size : ∀ (fuel m : Nat), m ≤ fuel → F64.bitLenAux fuel m = Nat.size m := by
  intro fuel
  induction fuel with
  | zero =>
    intro m hm
    have : m = 0 := by omega
    subst this
    simp [F64.bitLenAux]
  | succ fuel ih =>
    intro m hm
    rw [F64.bitLenAux]
    by_cases h0 : m = 0
    · subst h0
      simp
    · rw [if_neg h0, ih (m / 2) (by omega)]
      apply le_antisymm
      · rw [Nat.succ_le_iff, Nat.lt_size]
        by_cases h2 : m / 2 = 0
        · rw [h2, Nat.size_zero]
          simp
          omega
        · have hk : 0 < Nat.size (m / 2) := Nat.size_pos.mpr (Nat.pos_of_ne_zero h2)
          have h3 : 2 ^ (Nat.size (m / 2) - 1) ≤ m / 2 := Nat.lt_size.mp (by omega)
          have h4 : 2 ^ Nat.size (m / 2) = 2 * 2 ^ (Nat.size (m / 2) - 1) := by
            rw [← pow_succ']
            congr 1
            omega
          rw [h4]
          omega
      · rw [Nat.size_le, pow_succ]
        have := Nat.lt_size_self (m / 2)
        omega

theorem F64.bitLen_eq_size (m : Nat) : F64.bitLen m = Nat.size m :=
  F64.bitLenAux_eq_size m m (le_refl m)

theorem size_mul_pow (m k : Nat) (hm : m ≠ 0) : Nat.size (m * 2 ^ k) = Nat.size m + k := by
  rw [← Nat.shiftLeft_eq, Nat.size_shiftLeft hm]

theorem F64.valid_fin_iff (s : Bool) (m : Nat) (e : Int) :
    F64.valid (F64.fin s m e) = true ↔
      m < 2 ^ 53 ∧ -1074 ≤ e ∧ e ≤ 971 ∧ (e = -1074 ∨ 2 ^ 52 ≤ m) := by
  simp [F64.valid, F64.minExp, F64.maxExp]

/-- Rounding leaves a representable value alone: if `m * 2^e` is the value of
the canonical pair `(m0, e0)`, rounding it gives exactly that pair. -/
theorem F64.round_exact (s : Bool) (m : Nat) (e : Int) (m0 : Nat) (e0 : Int)
    (hm : m ≠ 0) (hv : F64.valid (F64.fin s m0 e0) = true)
    (hR : (e0 ≤ e ∧ m * 2 ^ (e - e0).toNat = m0) ∨ (e < e0 ∧ m = m0 * 2 ^ (e0 - e).toNat)) :
    F64.round s m e = F64.fin s m0 e0 := by
  rw [F64.valid_fin_iff] at hv
  obtain ⟨hv1, hv2, hv3, hv4⟩ := hv
  have hm0 : m0 ≠ 0 := by
    rcases hR with ⟨_, h⟩ | ⟨_, h⟩
    · rw [← h]
      exact Nat.mul_ne_zero hm (by positivity)
    · intro h0
      rw [h0, Nat.zero_mul] at h
      exact hm h
  have hsz : (e : Int) + (Nat.size m : Int) = e0 + (Nat.size m0 : Int) := by
    rcases hR with ⟨h1, h2⟩ | ⟨h1, h2⟩
    · rw [← h2, size_mul_pow _ _ hm]
      push_cast
      rw [Int.toNat_of_nonneg (by omega)]
      ring
    · rw [h2, size_mul_pow _ _ hm0]
      push_cast
      rw [Int.toNat_of_nonneg (by omega)]
      ring
  have hs53 : Nat.size m0 ≤ 53 := Nat.size_le.mpr hv1
  have hE : max (e + (F64.bitLen m : Int) - 53) F64.minExp = e0 := by
    rw [F64.bitLen_eq_size, F64.minExp]
    rcases hv4 with h | h
    · rw [max_eq_right (by omega)]
      exact h.symm
    · have h52 : 52 < Nat.size m0 := Nat.lt_size.mpr h
      rw [max_eq_left (by omega)]
      omega
  rcases hR with ⟨h1, h2⟩ | ⟨h1, h2⟩
  · simp only [F64.round, hm, if_false, hE, h1, if_true, h2, F64.maxExp, gt_iff_lt,
      not_lt.mpr hv3]
  · have hsh : 0 < (e0 - e).toNat := by omega
    have hq : m / 2 ^ (e0 - e).toNat = m0 := by
      rw [h2]
      exact Nat.mul_div_cancel _ (by positivity)
    have hr : m % 2 ^ (e0 - e).toNat = 0 := by
      rw [h2]
      exact Nat.mul_mod_left _ _
    have hhalf : 0 < 2 ^ ((e0 - e).toNat - 1) := by positivity
    have hq1 : (if m % 2 ^ (e0 - e).toNat > 2 ^ ((e0 - e).toNat - 1) ∨
        (m % 2 ^ (e0 - e).toNat = 2 ^ ((e0 - e).toNat - 1) ∧
          m / 2 ^ (e0 - e).toNat % 2 = 1) then m / 2 ^ (e0 - e).toNat + 1
        else m / 2 ^ (e0 - e).toNat) = m0 := by
      rw [hr, hq, if_neg]
      rintro (h | ⟨h, _⟩) <;> omega
    simp only [F64.round, hm, if_false, hE, not_le.mpr h1, hq1, hm0,
      Nat.ne_of_lt hv1, F64.maxExp, gt_iff_lt, not_lt.mpr hv3]

/-- Rounding always produces a float64 bit pattern. -/
theorem F64.round_valid (s : Bool) (m : Nat) (e : Int) :
    F64.valid (F64.round s m e) = true := by
  by_cases hm : m = 0
  · simp [F64.round, hm, F64.valid, F64.minExp, F64.maxExp]
  have hL1 : m < 2 ^ Nat.size m := Nat.lt_size_self m
  have hLpos : 0 < Nat.size m := Nat.size_pos.mpr (Nat.pos_of_ne_zero hm)
  have hL2 : 2 ^ (Nat.size m - 1) ≤ m := Nat.lt_size.mp (by omega)
  have hEa : e + (Nat.size m : Int) - 53 ≤ max (e + (Nat.size m : Int) - 53) (-1074) :=
    le_max_left _ _
  have hEb : (-1074 : Int) ≤ max (e + (Nat.size m : Int) - 53) (-1074) := le_max_right _ _
  have hEc : max (e + (Nat.size m : Int) - 53) (-1074) = -1074 ∨
      max (e + (Nat.size m : Int) - 53) (-1074) = e + (Nat.size m : Int) - 53 := by
    rcases max_choice (e + (Nat.size m : Int) - 53) (-1074) with h | h
    · exact Or.inr h
    · exact Or.inl h
  simp only [F64.round, hm, if_false, F64.bitLen_eq_size, F64.minExp, F64.maxExp]
  generalize max (e + (Nat.size m : Int) - 53) (-1074) = E at hEa hEb hEc ⊢
  by_cases h1 : E ≤ e
  · simp only [h1, if_true]
    by_cases h2 : E > 971
    · simp [h2, F64.valid]
    · simp only [h2, if_false]
      have hsz : Nat.size (m * 2 ^ (e - E).toNat) = Nat.size m + (e - E).toNat :=
        size_mul_pow m _ hm
      rw [F64.valid_fin_iff]
      refine ⟨Nat.size_le.mp (by omega), hEb, by omega, ?_⟩
      rcases hEc with h | h
      · exact Or.inl h
      · exact Or.inr (Nat.lt_size.mp (by omega))
  · simp only [h1, if_false]
    have hsh : 0 < (E - e).toNat := by omega
    have hq_lt : m / 2 ^ (E - e).toNat < 2 ^ 53 := by
      apply Nat.div_lt_of_lt_mul
      rw [← pow_add]
      exact lt_of_lt_of_le hL1 (Nat.pow_le_pow_right (by norm_num) (by omega))
    have hq_ge : E ≠ -1074 → 2 ^ 52 ≤ m / 2 ^ (E - e).toNat := by
      intro hne
      have h := hEc.resolve_left hne
      rw [Nat.le_div_iff_mul_le (by positivity), ← pow_add]
      exact le_trans (Nat.pow_le_pow_right (by norm_num) (by omega)) hL2
    have hdone : ∀ q1 : Nat, m / 2 ^ (E - e).toNat ≤ q1 → q1 ≤ m / 2 ^ (E - e).toNat + 1 →
        F64.valid (if q1 = 0 then F64.fin s 0 (-1074)
          else if q1 = 2 ^ 53 then
            (if E + 1 > 971 then F64.inf s else F64.fin s (2 ^ 52) (E + 1))
          else if E > 971 then F64.inf s else F64.fin s q1 E) = true := by
      intro q1 hlo hhi
      split_ifs
      · rfl
      · rfl
      · rw [F64.valid_fin_iff]
        exact ⟨by norm_num, by omega, by omega, Or.inr (le_refl _)⟩
      · rfl
      · rw [F64.valid_fin_iff]
        refine ⟨by omega, hEb, by omega, ?_⟩
        by_cases hE : E = -1074
        · exact Or.inl hE
        · exact Or.inr (le_trans (hq_ge hE) hlo)
    refine hdone _ ?_ ?_ <;> split_ifs <;> omega

/-- The sign passes through rounding untouched: the result is finite with a
magnitude that does not depend on the sign, or the infinity of that sign. -/
theorem F64.round_shape (m : Nat) (e : Int) :
    (∃ (m1 : Nat) (e1 : Int), ∀ s, F64.round s m e = F64.fin s m1 e1) ∨
      (∀ s, F64.round s m e = F64.inf s) := by
  simp only [F64.round]
  split_ifs <;> first
    | exact Or.inr (fun _ => rfl)
    | exact Or.inl ⟨_, _, fun _ => rfl⟩

theorem F64.round_ne_nan (s : Bool) (m : Nat) (e : Int) : F64.round s m e ≠ F64.nan := by
  rcases F64.round_shape m e with ⟨m1, e1, h⟩ | h <;> rw [h s] <;> simp

theorem F64.neg_round (s : Bool) (m : Nat) (e : Int) :
    F64.neg (F64.round s m e) = F64.round (!s) m e := by
  rcases F64.round_shape m e with ⟨m1, e1, h⟩ | h <;> rw [h s, h (!s)] <;> rfl

theorem F64.scaled_toRat (s : Bool) (m : Nat) (e g : Int) (h : g ≤ e) :
    (((if s = true then -1 else 1) * ((m * 2 ^ (e - g).toNat : Nat) : Int) : Int) : ℚ) *
      (2 : ℚ) ^ g = F64.toRat (F64.fin s m e) := by
  have h2 : (2 : ℚ) ^ (e - g).toNat * (2 : ℚ) ^ g = (2 : ℚ) ^ e := by
    rw [← zpow_natCast, Int.toNat_of_nonneg (by omega), ← zpow_add₀ (by norm_num)]
    congr 1
    ring
  cases s
  · simp only [F64.toRat, Bool.false_eq_true, if_false]
    push_cast
    linear_combination (m : ℚ) * h2
  · simp only [F64.toRat, if_true]
    push_cast
    linear_combination (-(m : ℚ)) * h2

/-- The sum of two finite values: the operands are aligned to the smaller
exponent and added as integers; a zero sum is a zero, anything else is
rounded. -/
theorem F64.add_fin_fin (s : Bool) (m : Nat) (e : Int) (t : Bool) (n : Nat) (f : Int) :
    ∃ c : Int,
      F64.add (F64.fin s m e) (F64.fin t n f) =
        (if c = 0 then F64.fin (s && t) 0 F64.minExp
          else F64.round (decide (c < 0)) c.natAbs (min e f)) ∧
      (c : ℚ) * (2 : ℚ) ^ (min e f) =
        F64.toRat (F64.fin s m e) + F64.toRat (F64.fin t n f) := by
  refine ⟨_, rfl, ?_⟩
  push_cast
  rw [add_mul]
  have h1 := F64.scaled_toRat s m e (min e f) (min_le_left e f)
  have h2 := F64.scaled_toRat t n f (min e f) (min_le_right e f)
  push_cast at h1 h2
  rw [h1, h2]

theorem F64.zero_valid (s : Bool) : F64.valid (F64.fin s 0 F64.minExp) = true := by
  rw [F64.valid_fin_iff, F64.minExp]
  exact ⟨by norm_num, le_refl _, by norm_num, Or.inl rfl⟩

theorem F64.add_valid (x y : F64) : F64.valid (F64.add x y) = true := by
  cases x with
  | nan => cases y <;> rfl
  | inf s =>
    cases y with
    | nan => rfl
    | inf t =>
      simp only [F64.add]
      split_ifs <;> rfl
    | fin t n f => rfl
  | fin s m e =>
    cases y with
    | nan => rfl
    | inf t => rfl
    | fin t n f =>
      obtain ⟨c, hc, _⟩ := F64.add_fin_fin s m e t n f
      rw [hc]
      split_ifs
      · exact F64.zero_valid _
      · exact F64.round_valid _ _ _

theorem F64.sub_valid (x y : F64) : F64.valid (F64.sub x y) = true :=
  F64.add_valid x (F64.neg y)

theorem F64.equal_self (x : F64) (h : x ≠ F64.nan) : F64.equal x x = true := by
  cases x with
  | nan => exact absurd rfl h
  | inf s => simp [F64.equal]
  | fin s m e => simp [F64.equal]

theorem F64.same_self (x : F64) : F64.same x x := by
  by_cases h : x = F64.nan
  · exact Or.inr ⟨h, h⟩
  · exact Or.inl (F64.equal_self x h)

theorem F64.minusOne_eq : F64.ofInt (-1) = F64.fin true (2 ^ 52) (-52) := by decide

/-- Multiplying a float64 by `-1` only flips its sign. -/
theorem F64.mul_neg_one (d : F64) (hv : F64.valid d = true) :
    F64.mul d (F64.ofInt (-1)) = F64.neg d := by
  rw [F64.minusOne_eq]
  cases d with
  | nan => rfl
  | inf s => simp [F64.mul, F64.neg]
  | fin s m e =>
    simp only [F64.mul, F64.neg, Bool.xor_true]
    by_cases hm : m = 0
    · subst hm
      rw [F64.valid_fin_iff] at hv
      have he : e = -1074 := by
        rcases hv.2.2.2 with h | h
        · exact h
        · norm_num at h
      subst he
      simp [F64.round, F64.minExp]
    · apply F64.round_exact _ _ _ _ _ (Nat.mul_ne_zero hm (by norm_num))
      · rw [F64.valid_fin_iff] at hv ⊢
        exact hv
      · right
        refine ⟨by omega, ?_⟩
        have : (e - (e + -52)).toNat = 52 := by omega
        rw [this]

/-- Swapping the operands of a subtraction only flips the sign of the result
(the two results are the same number up to the sign of a zero). -/
theorem F64.same_sub_neg_sub (p q : F64) :
    F64.same (F64.sub p q) (F64.neg (F64.sub q p)) := by
  cases p with
  | nan => exact Or.inr ⟨by cases q <;> rfl, by cases q <;> rfl⟩
  | inf s =>
    cases q with
    | nan => exact Or.inr ⟨rfl, rfl⟩
    | inf t =>
      cases s <;> cases t <;> first
        | exact Or.inr ⟨rfl, rfl⟩
        | exact Or.inl rfl
    | fin t n f => exact Or.inl (by simp [F64.sub, F64.neg, F64.add, F64.equal])
  | fin s m e =>
    cases q with
    | nan => exact Or.inr ⟨rfl, rfl⟩
    | inf t => exact Or.inl (by simp [F64.sub, F64.neg, F64.add, F64.equal])
    | fin t n f =>
      show F64.same (F64.add (F64.fin s m e) (F64.fin (!t) n f))
        (F64.neg (F64.add (F64.fin t n f) (F64.fin (!s) m e)))
      simp only [F64.add]
      rw [min_comm f e]
      have hc : (if t = true then -1 else 1) * ((n * 2 ^ (f - min e f).toNat : Nat) : Int) +
          (if (!s) = true then -1 else 1) * ((m * 2 ^ (e - min e f).toNat : Nat) : Int) =
          -((if s = true then -1 else 1) * ((m * 2 ^ (e - min e f).toNat : Nat) : Int) +
          (if (!t) = true then -1 else 1) * ((n * 2 ^ (f - min e f).toNat : Nat) : Int)) := by
        cases s <;> cases t <;> simp
      rw [hc]
      generalize (if s = true then -1 else 1) * ((m * 2 ^ (e - min e f).toNat : Nat) : Int) +
          (if (!t) = true then -1 else 1) * ((n * 2 ^ (f - min e f).toNat : Nat) : Int) = c
      by_cases h0 : c = 0
      · rw [if_pos h0, if_pos (by omega)]
        exact Or.inl (by simp [F64.neg, F64.equal])
      · rw [if_neg h0, if_neg (by omega), F64.neg_round, Int.natAbs_neg]
        have hs : (!decide (-c < 0)) = decide (c < 0) := by
          by_cases h : c < 0
          · simp [h]
            omega
          · simp [h]
            omega
        rw [hs]
        exact Or.inl (F64.equal_self _ (F64.round_ne_nan _ _ _))

theorem F64.same_cross_component (p q p1 q1 : F64) (hp : p1 = p) (hq : q1 = q) :
    F64.same (F64.sub p q) (F64.mul (F64.sub q1 p1) (F64.ofInt (-1))) := by
  rw [hp, hq, F64.mul_neg_one _ (F64.sub_valid q p)]
  exact F64.same_sub_neg_sub p q

/-- C15: for `a` and `b` both of length 3, `a.Cross(b)` and `b.Cross(a).Mul(-1)`
both return vectors of length 3 whose components are the same numbers at
every index: equal under Go `==` (a zero may differ in sign), or both NaN. -/
theorem Cross_anticommutative (a b : Vector) (ha : a.length = 3) (hb : b.length = 3) :
    ∃ u v w : Vector, Cross a b = .ok u ∧ Cross b a = .ok v ∧
      Mul v (F64.ofInt (-1)) = .ok w ∧ u.length = 3 ∧ w.length = 3 ∧
      ∀ (i : Nat) (x y : F64), u[i]? = some x → w[i]? = some y → F64.same x y := by
  obtain ⟨a0, a1, a2, rfl⟩ := length_three a ha
  obtain ⟨b0, b1, b2, rfl⟩ := length_three b hb
  refine ⟨_, _, _, Cross_ok a0 a1 a2 b0 b1 b2, Cross_ok b0 b1 b2 a0 a1 a2,
    Mul_eq_map _ _, rfl, rfl, ?_⟩
  intro i x y hx hy
  match i with
  | 0 =>
    simp only [List.getElem?_cons_zero, List.map_cons, Option.some.injEq] at hx hy
    rw [← hx, ← hy]
    exact F64.same_cross_component _ _ _ _ (F64.mul_comm b2 a1) (F64.mul_comm b1 a2)
  | 1 =>
    simp only [List.getElem?_cons_succ, List.getElem?_cons_zero, List.map_cons,
      Option.some.injEq] at hx hy
    rw [← hx, ← hy]
    exact F64.same_cross_component _ _ _ _ (F64.mul_comm b0 a2) (F64.mul_comm b2 a0)
  | 2 =>
    simp only [List.getElem?_cons_succ, List.getElem?_cons_zero, List.map_cons,
      Option.some.injEq] at hx hy
    rw [← hx, ← hy]
    exact F64.same_cross_component _ _ _ _ (F64.mul_comm b1 a0) (F64.mul_comm b0 a1)
  | k + 3 =>
    simp at hx

/-- Witness for C15: `[1,2,3].Cross([3,4,5])` and `[3,4,5].Cross([1,2,3]).Mul(-1)`
are both `[-2,4,-2]`. -/
theorem Cross_anticommutative_witness :
    (lit [1, 2, 3]).length = 3 ∧ (lit [3, 4, 5]).length = 3 ∧
    (∃ u v w : Vector, Cross (lit [1, 2, 3]) (lit [3, 4, 5]) = .ok u ∧
      Cross (lit [3, 4, 5]) (lit [1, 2, 3]) = .ok v ∧
      Mul v (F64.ofInt (-1)) = .ok w ∧ u.length = 3 ∧ w.length = 3 ∧
      ∀ (i : Nat) (x y : F64), u[i]? = some x → w[i]? = some y → F64.same x y) ∧
    Cross (lit [1, 2, 3]) (lit [3, 4, 5]) = .ok (lit [-2, 4, -2]) ∧
    (Cross (lit [3, 4, 5]) (lit [1, 2, 3]) >>= fun v => Mul v (F64.ofInt (-1))) =
      .ok (lit [-2, 4, -2]) :=
  ⟨by decide, by decide,
    Cross_anticommutative (lit [1, 2, 3]) (lit [3, 4, 5]) (by decide) (by decide),
    by rfl, by rfl⟩

/-! ## Exact operations -/

theorem F64.equal_of_toRat (x y : F64) (hx : F64.finite x = true) (hy : F64.finite y = true)
    (h : F64.toRat x = F64.toRat y) : F64.equal x y = true := by
  cases x with
  | nan => cases hx
  | inf s => cases hx
  | fin s m e =>
    cases y with
    | nan => cases hy
    | inf t => cases hy
    | fin t n f =>
      simp only [F64.equal, decide_eq_true_eq]
      have h1 := F64.scaled_toRat s m e (min e f) (min_le_left e f)
      have h2 := F64.scaled_toRat t n f (min e f) (min_le_right e f)
      rw [h, ← h2] at h1
      have hpos : (2 : ℚ) ^ (min e f) ≠ 0 := zpow_ne_zero _ (by norm_num)
      exact Int.cast_injective (mul_right_cancel₀ hpos h1)

/-- Two magnitudes `m0 * 2^e0` and `m * 2^e` that are equal as real numbers
differ by a shift of the digits. -/
theorem F64.shift_of_eq (m0 m : Nat) (e0 e : Int)
    (h : (m0 : ℚ) * (2 : ℚ) ^ e0 = (m : ℚ) * (2 : ℚ) ^ e) :
    (e0 ≤ e ∧ m * 2 ^ (e - e0).toNat = m0) ∨ (e < e0 ∧ m = m0 * 2 ^ (e0 - e).toNat) := by
  by_cases hle : e0 ≤ e
  · left
    refine ⟨hle, ?_⟩
    have h2 : (2 : ℚ) ^ (e - e0).toNat * (2 : ℚ) ^ e0 = (2 : ℚ) ^ e := by
      rw [← zpow_natCast, Int.toNat_of_nonneg (by omega), ← zpow_add₀ (by norm_num)]
      congr 1
      ring
    have hpos : (2 : ℚ) ^ e0 ≠ 0 := zpow_ne_zero _ (by norm_num)
    have h3 : ((m * 2 ^ (e - e0).toNat : Nat) : ℚ) * (2 : ℚ) ^ e0 = (m0 : ℚ) * (2 : ℚ) ^ e0 := by
      push_cast
      rw [h, ← h2]
      ring
    exact Nat.cast_injective (mul_right_cancel₀ hpos h3)
  · right
    refine ⟨by omega, ?_⟩
    have h2 : (2 : ℚ) ^ (e0 - e).toNat * (2 : ℚ) ^ e = (2 : ℚ) ^ e0 := by
      rw [← zpow_natCast, Int.toNat_of_nonneg (by omega), ← zpow_add₀ (by norm_num)]
      congr 1
      ring
    have hpos : (2 : ℚ) ^ e ≠ 0 := zpow_ne_zero _ (by norm_num)
    have h3 : (m : ℚ) * (2 : ℚ) ^ e = ((m0 * 2 ^ (e0 - e).toNat : Nat) : ℚ) * (2 : ℚ) ^ e := by
      push_cast
      rw [← h, ← h2]
      ring
    exact Nat.cast_injective (mul_right_cancel₀ hpos h3)

theorem F64.abs_toRat_fin (s : Bool) (m : Nat) (e : Int) :
    |F64.toRat (F64.fin s m e)| = (m : ℚ) * (2 : ℚ) ^ e := by
  have hpos : (0 : ℚ) ≤ (m : ℚ) * (2 : ℚ) ^ e :=
    mul_nonneg (Nat.cast_nonneg m) (le_of_lt (zpow_pos (by norm_num) e))
  cases s
  · simp only [F64.toRat, Bool.false_eq_true, if_false, one_mul]
    exact abs_of_nonneg hpos
  · simp only [F64.toRat, if_true]
    rw [mul_assoc, neg_one_mul, abs_neg]
    exact abs_of_nonneg hpos

/-- Rounding a magnitude that some float64 has returns it unrounded. -/
theorem F64.round_of_repr (s : Bool) (m : Nat) (e : Int) (z : F64)
    (hz : F64.finite z = true) (hv : F64.valid z = true)
    (h : |F64.toRat z| = (m : ℚ) * (2 : ℚ) ^ e) :
    F64.exact (F64.round s m e) ((if s = true then -1 else 1) * (m : ℚ) * (2 : ℚ) ^ e) := by
  by_cases hm : m = 0
  · subst hm
    have hr : F64.round s 0 e = F64.fin s 0 F64.minExp := by simp [F64.round]
    rw [hr]
    exact ⟨rfl, by simp [F64.toRat]⟩
  · cases z with
    | nan => cases hz
    | inf t => cases hz
    | fin t m0 e0 =>
      rw [F64.abs_toRat_fin] at h
      have hv1 : F64.valid (F64.fin s m0 e0) = true := by
        rw [F64.valid_fin_iff] at hv ⊢
        exact hv
      rw [F64.round_exact s m e m0 e0 hm hv1 (F64.shift_of_eq m0 m e0 e h)]
      refine ⟨rfl, ?_⟩
      simp only [F64.toRat]
      rw [mul_assoc, h, mul_assoc]

theorem F64.finite_of_add (x y : F64) (h : F64.finite (F64.add x y) = true) :
    F64.finite x = true ∧ F64.finite y = true := by
  cases x with
  | nan => cases y <;> cases h
  | inf s =>
    cases y with
    | nan => cases h
    | inf t =>
      simp only [F64.add] at h
      split_ifs at h <;> cases h
    | fin t n f => cases h
  | fin s m e =>
    cases y with
    | nan => cases h
    | inf t => cases h
    | fin t n f => exact ⟨rfl, rfl⟩

/-- An addition whose real result has the magnitude of some float64 is exact. -/
theorem F64.add_exact (x y z : F64) (hx : F64.finite x = true) (hy : F64.finite y = true)
    (hz : F64.finite z = true) (hv : F64.valid z = true)
    (h : |F64.toRat z| = |F64.toRat x + F64.toRat y|) :
    F64.exact (F64.add x y) (F64.toRat x + F64.toRat y) := by
  cases x with
  | nan => cases hx
  | inf s => cases hx
  | fin s m e =>
    cases y with
    | nan => cases hy
    | inf t => cases hy
    | fin t n f =>
      obtain ⟨c, hc, hval⟩ := F64.add_fin_fin s m e t n f
      rw [hc, ← hval]
      by_cases h0 : c = 0
      · rw [if_pos h0, h0]
        exact ⟨rfl, by simp [F64.toRat]⟩
      · rw [if_neg h0]
        have hpos : (0 : ℚ) < (2 : ℚ) ^ (min e f) := zpow_pos (by norm_num) _
        have habs : |F64.toRat z| = ((c.natAbs : Nat) : ℚ) * (2 : ℚ) ^ (min e f) := by
          rw [h, ← hval, abs_mul, abs_of_pos hpos, Nat.cast_natAbs, Int.cast_abs]
        have hr := F64.round_of_repr (decide (c < 0)) c.natAbs (min e f) z hz hv habs
        have hsign : (if decide (c < 0) = true then (-1 : ℚ) else 1) * ((c.natAbs : Nat) : ℚ) =
            (c : ℚ) := by
          rw [Nat.cast_natAbs, Int.cast_abs]
          by_cases hneg : c < 0
          · have : (c : ℚ) < 0 := by exact_mod_cast hneg
            simp [hneg, abs_of_neg this]
          · have : (0 : ℚ) ≤ (c : ℚ) := by exact_mod_cast (not_lt.mp hneg)
            simp [hneg, abs_of_nonneg this]
        rw [hsign] at hr
        exact hr

/-- A multiplication whose real result has the magnitude of some float64 is
exact. -/
theorem F64.mul_exact (x y z : F64) (hx : F64.finite x = true) (hy : F64.finite y = true)
    (hz : F64.finite z = true) (hv : F64.valid z = true)
    (h : |F64.toRat z| = |F64.toRat x * F64.toRat y|) :
    F64.exact (F64.mul x y) (F64.toRat x * F64.toRat y) := by
  cases x with
  | nan => cases hx
  | inf s => cases hx
  | fin s m e =>
    cases y with
    | nan => cases hy
    | inf t => cases hy
    | fin t n f =>
      have habs : |F64.toRat z| = ((m * n : Nat) : ℚ) * (2 : ℚ) ^ (e + f) := by
        rw [h, abs_mul, F64.abs_toRat_fin, F64.abs_toRat_fin, zpow_add₀ (by norm_num)]
        push_cast
        ring
      have hr := F64.round_of_repr (xor s t) (m * n) (e + f) z hz hv habs
      have hval : (if xor s t = true then (-1 : ℚ) else 1) * ((m * n : Nat) : ℚ) *
          (2 : ℚ) ^ (e + f) = F64.toRat (F64.fin s m e) * F64.toRat (F64.fin t n f) := by
        rw [zpow_add₀ (by norm_num)]
        cases s <;> cases t <;> simp [F64.toRat] <;> ring
      rw [hval] at hr
      exact hr

theorem F64.neg_exact (x : F64) (q : ℚ) (h : F64.exact x q) : F64.exact (F64.neg x) (-q) := by
  cases x with
  | nan => cases h.1
  | inf s => cases h.1
  | fin s m e =>
    refine ⟨rfl, ?_⟩
    rw [← h.2]
    cases s <;> simp [F64.neg, F64.toRat]

/-- Every natural number below `2^53` is a float64. -/
theorem F64.exists_repr_nat (n : Nat) (h : n < 2 ^ 53) :
    ∃ z : F64, F64.finite z = true ∧ F64.valid z = true ∧ F64.toRat z = (n : ℚ) := by
  by_cases h0 : n = 0
  · subst h0
    exact ⟨F64.fin false 0 F64.minExp, rfl, F64.zero_valid false, by simp [F64.toRat]⟩
  · have hL : Nat.size n ≤ 53 := Nat.size_le.mpr h
    have hpos : 0 < Nat.size n := Nat.size_pos.mpr (Nat.pos_of_ne_zero h0)
    have hsz : Nat.size (n * 2 ^ (53 - Nat.size n)) = 53 := by
      rw [size_mul_pow n _ h0]
      omega
    refine ⟨F64.fin false (n * 2 ^ (53 - Nat.size n)) ((Nat.size n : Int) - 53), rfl, ?_, ?_⟩
    · rw [F64.valid_fin_iff]
      exact ⟨Nat.size_le.mp (le_of_eq hsz), by omega, by omega,
        Or.inr (Nat.lt_size.mp (by omega))⟩
    · simp only [F64.toRat, Bool.false_eq_true, if_false, one_mul]
      push_cast
      have h2 : (2 : ℚ) ^ (53 - Nat.size n) * (2 : ℚ) ^ ((Nat.size n : Int) - 53) = 1 := by
        rw [← zpow_natCast, ← zpow_add₀ (by norm_num)]
        have : ((53 - Nat.size n : Nat) : Int) + ((Nat.size n : Int) - 53) = 0 := by omega
        rw [this, zpow_zero]
      rw [mul_assoc, h2, mul_one]

/-- Every rational number that is an integer below `2^53` in absolute value has
the magnitude of a float64. -/
theorem F64.exists_repr_int (k : Int) (h : |k| < 2 ^ 53) :
    ∃ z : F64, F64.finite z = true ∧ F64.valid z = true ∧ |F64.toRat z| = |(k : ℚ)| := by
  have hn : k.natAbs < 2 ^ 53 := by
    have := Int.natCast_natAbs k
    omega
  obtain ⟨z, h1, h2, h3⟩ := F64.exists_repr_nat k.natAbs hn
  refine ⟨z, h1, h2, ?_⟩
  rw [h3, Nat.cast_natAbs, Int.cast_abs, abs_abs]

/-- When the sum `x + y` is exact, subtracting `y` again gives back the float64
`x`, exactly. -/
theorem F64.add_sub_cancel_exact (x y : F64) (hv : F64.valid x = true)
    (hex : F64.exact (F64.add x y) (F64.toRat x + F64.toRat y)) :
    F64.exact (F64.sub (F64.add x y) y) (F64.toRat x) := by
  obtain ⟨hfx, hfy⟩ := F64.finite_of_add x y hex.1
  have hny := F64.neg_exact y (F64.toRat y) ⟨hfy, rfl⟩
  have hsum : F64.toRat (F64.add x y) + F64.toRat (F64.neg y) = F64.toRat x := by
    rw [hex.2, hny.2]
    ring
  have h := F64.add_exact (F64.add x y) (F64.neg y) x hex.1 hny.1 hfx hv (by rw [hsum])
  rw [hsum] at h
  exact h

/-- Two finite values that are the same real number pass the tolerance test
`eq` of the package's tests. -/
theorem eq_of_toRat (r x : F64) (hr : F64.finite r = true) (hx : F64.finite x = true)
    (h : F64.toRat r = F64.toRat x) : eq r x = true := by
  cases r with
  | nan => cases hr
  | inf s => cases hr
  | fin s m e =>
    cases x with
    | nan => cases hx
    | inf t => cases hx
    | fin t n f =>
      obtain ⟨c, hc, hval⟩ := F64.add_fin_fin s m e (!t) n f
      have hneg := (F64.neg_exact (F64.fin t n f) _ ⟨rfl, rfl⟩).2
      have hc0 : c = 0 := by
        have h1 : (c : ℚ) * (2 : ℚ) ^ (min e f) = 0 := by
          rw [hval]
          change F64.toRat (F64.fin s m e) + F64.toRat (F64.neg (F64.fin t n f)) = 0
          rw [hneg, h]
          ring
        have hpos : (2 : ℚ) ^ (min e f) ≠ 0 := zpow_ne_zero _ (by norm_num)
        exact_mod_cast (mul_eq_zero.mp h1).resolve_right hpos
      rw [if_pos hc0] at hc
      have hsub : F64.sub (F64.fin s m e) (F64.fin t n f) = F64.fin (s && !t) 0 F64.minExp := hc
      unfold eq
      rw [hsub]
      show F64.less (F64.fin false 0 F64.minExp) tolerance = true
      decide

theorem getElem?_zipWith_of (op : F64 → F64 → F64) (a b : Vector) (i : Nat) (x y : F64)
    (hx : a[i]? = some x) (hy : b[i]? = some y) :
    (List.zipWith op a b)[i]? = some (op x y) := by
  rw [List.getElem?_zipWith, hx, hy]

/-! ## Integer-valued float64 values -/

theorem F64.ofNat_exact (n : Nat) (h : n < 2 ^ 53) : F64.exact (F64.ofNat n) (n : ℚ) := by
  obtain ⟨z, h1, h2, h3⟩ := F64.exists_repr_nat n h
  have hr := F64.round_of_repr false n 0 z h1 h2 (by
    rw [h3, zpow_zero, mul_one]
    exact abs_of_nonneg (Nat.cast_nonneg n))
  simpa using hr

/-- An integer constant below `2^53` in absolute value is converted exactly. -/
theorem F64.ofInt_exact (k : Int) (h : |k| < 2 ^ 53) : F64.exact (F64.ofInt k) (k : ℚ) := by
  cases k with
  | ofNat n =>
    have hn : n < 2 ^ 53 := by
      have : |(Int.ofNat n)| = (n : Int) := abs_of_nonneg (Int.ofNat_nonneg n)
      rw [this] at h
      exact_mod_cast h
    exact F64.ofNat_exact n hn
  | negSucc n =>
    have hn : n + 1 < 2 ^ 53 := by
      have : |Int.negSucc n| = ((n + 1 : Nat) : Int) := by
        rw [abs_of_neg (Int.negSucc_lt_zero n)]
        rfl
      rw [this] at h
      exact_mod_cast h
    have hr := F64.neg_exact _ _ (F64.ofNat_exact (n + 1) hn)
    have hc : ((Int.negSucc n : Int) : ℚ) = -(((n + 1 : Nat)) : ℚ) := by
      rw [Int.cast_negSucc]
    rw [hc]
    exact hr

/-- Adding two integer-valued values whose integer sum stays within `A + B`,
below `2^53`, is exact. -/
theorem F64.add_int (x y : F64) (p q A B : Int) (hx : F64.exact x (p : ℚ))
    (hy : F64.exact y (q : ℚ)) (hp : |p| ≤ A) (hq : |q| ≤ B) (hAB : A + B < 2 ^ 53) :
    F64.exact (F64.add x y) ((p + q : Int) : ℚ) ∧ |p + q| ≤ A + B := by
  have hb : |p + q| ≤ A + B := le_trans (abs_add p q) (add_le_add hp hq)
  obtain ⟨z, h1, h2, h3⟩ := F64.exists_repr_int (p + q) (lt_of_le_of_lt hb hAB)
  have h := F64.add_exact x y z hx.1 hy.1 h1 h2 (by rw [h3, hx.2, hy.2]; push_cast; rfl)
  rw [hx.2, hy.2] at h
  exact ⟨by push_cast; exact h, hb⟩

/-- Subtracting two integer-valued values whose integer difference stays within
`A + B`, below `2^53`, is exact. -/
theorem F64.sub_int (x y : F64) (p q A B : Int) (hx : F64.exact x (p : ℚ))
    (hy : F64.exact y (q : ℚ)) (hp : |p| ≤ A) (hq : |q| ≤ B) (hAB : A + B < 2 ^ 53) :
    F64.exact (F64.sub x y) ((p - q : Int) : ℚ) ∧ |p - q| ≤ A + B := by
  have hny := F64.neg_exact y _ hy
  have hnq : F64.exact (F64.neg y) ((-q : Int) : ℚ) := by
    push_cast
    exact hny
  have h := F64.add_int x (F64.neg y) p (-q) A B hx hnq hp (by rw [abs_neg]; exact hq) hAB
  rw [← sub_eq_add_neg] at h
  exact h

/-- Multiplying two integer-valued values whose integer product stays within
`A * B`, below `2^53`, is exact. -/
theorem F64.mul_int (x y : F64) (p q A B : Int) (hx : F64.exact x (p : ℚ))
    (hy : F64.exact y (q : ℚ)) (hp : |p| ≤ A) (hq : |q| ≤ B) (hAB : A * B < 2 ^ 53) :
    F64.exact (F64.mul x y) ((p * q : Int) : ℚ) ∧ |p * q| ≤ A * B := by
  have hb : |p * q| ≤ A * B := by
    rw [abs_mul]
    exact mul_le_mul hp hq (abs_nonneg q) (le_trans (abs_nonneg p) hp)
  obtain ⟨z, h1, h2, h3⟩ := F64.exists_repr_int (p * q) (lt_of_le_of_lt hb hAB)
  have h := F64.mul_exact x y z hx.1 hy.1 h1 h2 (by rw [h3, hx.2, hy.2]; push_cast; rfl)
  rw [hx.2, hy.2] at h
  exact ⟨by push_cast; exact h, hb⟩

/-- A component `x*y - u*v` of a cross product of integer-valued vectors with
entries up to `2^16` is exact. -/
theorem F64.cross_component_int (x y u v : F64) (p q r s : Int)
    (hx : F64.exact x (p : ℚ)) (hy : F64.exact y (q : ℚ))
    (hu : F64.exact u (r : ℚ)) (hv : F64.exact v (s : ℚ))
    (hp : |p| ≤ 2 ^ 16) (hq : |q| ≤ 2 ^ 16) (hr : |r| ≤ 2 ^ 16) (hs : |s| ≤ 2 ^ 16) :
    F64.exact (F64.sub (F64.mul x y) (F64.mul u v)) ((p * q - r * s : Int) : ℚ) ∧
      |p * q - r * s| ≤ 2 ^ 33 := by
  obtain ⟨h1, b1⟩ := F64.mul_int x y p q _ _ hx hy hp hq (by norm_num)
  obtain ⟨h2, b2⟩ := F64.mul_int u v r s _ _ hu hv hr hs (by norm_num)
  obtain ⟨h3, b3⟩ := F64.sub_int _ _ _ _ _ _ h1 h2 b1 b2 (by norm_num)
  exact ⟨h3, le_trans b3 (by norm_num)⟩

/-- The three-term dot product loop on integer-valued operands that are small
enough is exact, so it is zero when the integer dot product is zero. -/
theorem F64.dot3_int_zero (c0 c1 c2 x0 x1 x2 : F64) (u0 u1 u2 z0 z1 z2 : Int)
    (hc0 : F64.exact c0 (u0 : ℚ)) (hc1 : F64.exact c1 (u1 : ℚ)) (hc2 : F64.exact c2 (u2 : ℚ))
    (hx0 : F64.exact x0 (z0 : ℚ)) (hx1 : F64.exact x1 (z1 : ℚ)) (hx2 : F64.exact x2 (z2 : ℚ))
    (bu0 : |u0| ≤ 2 ^ 33) (bu1 : |u1| ≤ 2 ^ 33) (bu2 : |u2| ≤ 2 ^ 33)
    (bz0 : |z0| ≤ 2 ^ 16) (bz1 : |z1| ≤ 2 ^ 16) (bz2 : |z2| ≤ 2 ^ 16)
    (hsum : u0 * z0 + u1 * z1 + u2 * z2 = 0) :
    F64.equal (F64.add (F64.add (F64.add F64.zero (F64.mul c0 x0)) (F64.mul c1 x1))
      (F64.mul c2 x2)) F64.zero = true := by
  obtain ⟨t0, d0⟩ := F64.mul_int c0 x0 u0 z0 _ _ hc0 hx0 bu0 bz0 (by norm_num)
  obtain ⟨t1, d1⟩ := F64.mul_int c1 x1 u1 z1 _ _ hc1 hx1 bu1 bz1 (by norm_num)
  obtain ⟨t2, d2⟩ := F64.mul_int c2 x2 u2 z2 _ _ hc2 hx2 bu2 bz2 (by norm_num)
  have hz : F64.exact F64.zero ((0 : Int) : ℚ) := ⟨rfl, by simp [F64.zero, F64.toRat]⟩
  obtain ⟨s1, e1⟩ := F64.add_int _ _ _ _ 0 _ hz t0 (by norm_num) d0 (by norm_num)
  obtain ⟨s2, e2⟩ := F64.add_int _ _ _ _ _ _ s1 t1 e1 d1 (by norm_num)
  obtain ⟨s3, _⟩ := F64.add_int _ _ _ _ _ _ s2 t2 e2 d2 (by norm_num)
  have h0 : (0 + u0 * z0 + u1 * z1 + u2 * z2 : Int) = 0 := by
    rw [Int.zero_add]
    exact hsum
  rw [h0] at s3
  exact F64.equal_of_toRat _ _ s3.1 rfl (by rw [s3.2, hz.2])

theorem lit_three (p : List Int) (A0 A1 A2 : F64) (h : [A0, A1, A2] = lit p) :
    ∃ p0 p1 p2 : Int, p = [p0, p1, p2] ∧ A0 = F64.ofInt p0 ∧ A1 = F64.ofInt p1 ∧
      A2 = F64.ofInt p2 := by
  match p, h with
  | [p0, p1, p2], h =>
    simp only [lit, List.map_cons, List.map_nil, List.cons.injEq, and_true] at h
    exact ⟨p0, p1, p2, rfl, h.1, h.2.1, h.2.2⟩

/-- C11, as stated, fails: for `a = [1]` and `b = [1e16]` the sum `1 + 1e16`
rounds to `1e16`, so `a.Add(b).Sub(b)` is `[0]`, and `0` is not within the
tolerance `1e-15` of `a[0] = 1`. Ordinary magnitudes fail too: for `a = [0.1]`
and `b = [100]` the result is `[0.09999999999999432]`, off by more than the
tolerance. -/
theorem Add_Sub_roundtrip_fails :
    (lit [1]).length = (lit [10 ^ 16]).length ∧
    (Add (lit [1]) (lit [10 ^ 16]) >>= fun v => Sub v (lit [10 ^ 16])) = .ok (lit [0]) ∧
    eq (F64.ofInt 0) (F64.ofInt 1) = false ∧
    (Add [F64.ofRatio 1 10] (lit [100]) >>= fun v => Sub v (lit [100])) =
      .ok [F64.fin false 7205759403792384 (-56)] ∧
    eq (F64.fin false 7205759403792384 (-56)) (F64.ofRatio 1 10) = false :=
  ⟨by decide, by rfl, by decide, by rfl, by decide⟩

/-- C11, amended: for `len(a) = len(b)`, `a.Add(b).Sub(b)` returns a vector of
the length of `a` whose `i`-th component is the float64 value
`(a[i] + b[i]) - b[i]`; at every index where `a[i]` is a float64 and the sum
`a[i] + b[i]` is exact (finite, nothing rounded away), that component equals
`a[i]`, so it passes the tests' tolerance check `eq`. -/
theorem Add_Sub_roundtrip (a b : Vector) (h : a.length = b.length) :
    ∃ v w : Vector, Add a b = .ok v ∧ Sub v b = .ok w ∧ w.length = a.length ∧
      ∀ (i : Nat) (x y : F64), a[i]? = some x → b[i]? = some y →
        w[i]? = some (F64.sub (F64.add x y) y) ∧
        (F64.valid x = true → F64.exact (F64.add x y) (F64.toRat x + F64.toRat y) →
          F64.equal (F64.sub (F64.add x y) y) x = true ∧
          eq (F64.sub (F64.add x y) y) x = true) := by
  have hl : (List.zipWith F64.add a b).length = b.length := by
    rw [List.length_zipWith, ← h, Nat.min_self]
  refine ⟨_, _, Add_eq_zipWith a b h, Sub_eq_zipWith _ b hl, ?_, ?_⟩
  · rw [List.length_zipWith, hl, ← h, Nat.min_self]
  · intro i x y hx hy
    refine ⟨getElem?_zipWith_of F64.sub _ b i _ y
      (getElem?_zipWith_of F64.add a b i x y hx hy) hy, ?_⟩
    intro hv hex
    have hr := F64.add_sub_cancel_exact x y hv hex
    have hfx := (F64.finite_of_add x y hex.1).1
    exact ⟨F64.equal_of_toRat _ _ hr.1 hfx hr.2, eq_of_toRat _ _ hr.1 hfx hr.2⟩

/-- Witness for the amended C11: `[1,2].Add([3,4]).Sub([3,4])` is `[1,2]` again. -/
theorem Add_Sub_roundtrip_witness :
    (lit [1, 2]).length = (lit [3, 4]).length ∧
    (∃ v w : Vector, Add (lit [1, 2]) (lit [3, 4]) = .ok v ∧ Sub v (lit [3, 4]) = .ok w ∧
      w.length = (lit [1, 2]).length ∧
      ∀ (i : Nat) (x y : F64), (lit [1, 2])[i]? = some x → (lit [3, 4])[i]? = some y →
        w[i]? = some (F64.sub (F64.add x y) y) ∧
        (F64.valid x = true → F64.exact (F64.add x y) (F64.toRat x + F64.toRat y) →
          F64.equal (F64.sub (F64.add x y) y) x = true ∧
          eq (F64.sub (F64.add x y) y) x = true)) ∧
    (Add (lit [1, 2]) (lit [3, 4]) >>= fun v => Sub v (lit [3, 4])) = .ok (lit [1, 2]) ∧
    (F64.valid (F64.ofInt 1) = true ∧
      F64.exact (F64.add (F64.ofInt 1) (F64.ofInt 3))
        (F64.toRat (F64.ofInt 1) + F64.toRat (F64.ofInt 3))) :=
  ⟨by decide, Add_Sub_roundtrip (lit [1, 2]) (lit [3, 4]) (by decide), by rfl, by decide, by
    have h1 := F64.ofInt_exact 1 (by norm_num)
    have h3 := F64.ofInt_exact 3 (by norm_num)
    have h := (F64.add_int _ _ 1 3 1 3 h1 h3 (by norm_num) (by norm_num) (by norm_num)).1
    rw [h1.2, h3.2, ← Int.cast_add]
    exact h⟩

/-- C13, as stated, fails: for `a = [2^53 - 1]`, `k = 5`, `m = 3` the product
`a[0] * 5` is rounded, so `a.Mul(5).Mul(3)` is `[135107988821114848]` while
`a.Mul(5 * 3)` is `[135107988821114864]`, and the two are not equal. -/
theorem Mul_Mul_fails :
    (Mul (lit [9007199254740991]) (F64.ofInt 5) >>= fun v => Mul v (F64.ofInt 3)) =
      .ok (lit [135107988821114848]) ∧
    Mul (lit [9007199254740991]) (F64.mul (F64.ofInt 5) (F64.ofInt 3)) =
      .ok (lit [135107988821114864]) ∧
    F64.equal (F64.ofInt 135107988821114848) (F64.ofInt 135107988821114864) = false :=
  ⟨by rfl, by rfl, by decide⟩

/-- C13, amended: `a.Mul(k).Mul(m)` and `a.Mul(k*m)` both return vectors of the
length of `a`, with `i`-th components `(a[i] * k) * m` and `a[i] * (k * m)`;
at every index where none of the four products is rounded (each is exact), the
two components are equal. -/
theorem Mul_Mul (a : Vector) (k m : F64) :
    ∃ v w u : Vector, Mul a k = .ok v ∧ Mul v m = .ok w ∧ Mul a (F64.mul k m) = .ok u ∧
      w.length = a.length ∧ u.length = a.length ∧
      ∀ (i : Nat) (x : F64), a[i]? = some x →
        w[i]? = some (F64.mul (F64.mul x k) m) ∧
        u[i]? = some (F64.mul x (F64.mul k m)) ∧
        (F64.exact (F64.mul x k) (F64.toRat x * F64.toRat k) →
          F64.exact (F64.mul (F64.mul x k) m) (F64.toRat (F64.mul x k) * F64.toRat m) →
          F64.exact (F64.mul k m) (F64.toRat k * F64.toRat m) →
          F64.exact (F64.mul x (F64.mul k m)) (F64.toRat x * F64.toRat (F64.mul k m)) →
          F64.equal (F64.mul (F64.mul x k) m) (F64.mul x (F64.mul k m)) = true) := by
  refine ⟨_, _, _, Mul_eq_map a k, Mul_eq_map _ m, Mul_eq_map a _, ?_, ?_, ?_⟩
  · rw [List.length_map, List.length_map]
  · rw [List.length_map]
  · intro i x hx
    refine ⟨?_, ?_, ?_⟩
    · rw [List.getElem?_map, List.getElem?_map, hx]
      rfl
    · rw [List.getElem?_map, hx]
      rfl
    · intro h1 h2 h3 h4
      apply F64.equal_of_toRat _ _ h2.1 h4.1
      rw [h2.2, h4.2, h1.2, h3.2]
      ring

/-- Witness for the amended C13: `[1,2].Mul(2).Mul(3)` and `[1,2].Mul(2*3)` are
both `[6,12]`. -/
theorem Mul_Mul_witness :
    (∃ v w u : Vector, Mul (lit [1, 2]) (F64.ofInt 2) = .ok v ∧ Mul v (F64.ofInt 3) = .ok w ∧
      Mul (lit [1, 2]) (F64.mul (F64.ofInt 2) (F64.ofInt 3)) = .ok u ∧
      w.length = (lit [1, 2]).length ∧ u.length = (lit [1, 2]).length ∧
      ∀ (i : Nat) (x : F64), (lit [1, 2])[i]? = some x →
        w[i]? = some (F64.mul (F64.mul x (F64.ofInt 2)) (F64.ofInt 3)) ∧
        u[i]? = some (F64.mul x (F64.mul (F64.ofInt 2) (F64.ofInt 3))) ∧
        (F64.exact (F64.mul x (F64.ofInt 2)) (F64.toRat x * F64.toRat (F64.ofInt 2)) →
          F64.exact (F64.mul (F64.mul x (F64.ofInt 2)) (F64.ofInt 3))
            (F64.toRat (F64.mul x (F64.ofInt 2)) * F64.toRat (F64.ofInt 3)) →
          F64.exact (F64.mul (F64.ofInt 2) (F64.ofInt 3))
            (F64.toRat (F64.ofInt 2) * F64.toRat (F64.ofInt 3)) →
          F64.exact (F64.mul x (F64.mul (F64.ofInt 2) (F64.ofInt 3)))
            (F64.toRat x * F64.toRat (F64.mul (F64.ofInt 2) (F64.ofInt 3))) →
          F64.equal (F64.mul (F64.mul x (F64.ofInt 2)) (F64.ofInt 3))
            (F64.mul x (F64.mul (F64.ofInt 2) (F64.ofInt 3))) = true)) ∧
    (Mul (lit [1, 2]) (F64.ofInt 2) >>= fun v => Mul v (F64.ofInt 3)) = .ok (lit [6, 12]) ∧
    Mul (lit [1, 2]) (F64.mul (F64.ofInt 2) (F64.ofInt 3)) = .ok (lit [6, 12]) ∧
    F64.exact (F64.mul (F64.ofInt 1) (F64.ofInt 2))
      (F64.toRat (F64.ofInt 1) * F64.toRat (F64.ofInt 2)) :=
  ⟨Mul_Mul (lit [1, 2]) (F64.ofInt 2) (F64.ofInt 3), by rfl, by rfl, by
    have h1 := F64.ofInt_exact 1 (by norm_num)
    have h2 := F64.ofInt_exact 2 (by norm_num)
    have h := (F64.mul_int _ _ 1 2 1 2 h1 h2 (by norm_num) (by norm_num) (by norm_num)).1
    rw [h1.2, h2.2, ← Int.cast_mul]
    exact h⟩

/-- C16, as stated, fails: for `a = [2^53, -1, 1]` and `b = [-1, 1, 1]` the
component `a[2]*b[0] - a[0]*b[2] = -1 - 2^53` of the cross product is rounded to
`-2^53`, and then `a.Cross(b).Dot(a)` is `-1` and `a.Cross(b).Dot(b)` is `1`,
not `0`. -/
theorem Cross_Dot_not_zero :
    (lit [9007199254740992, -1, 1]).length = 3 ∧ (lit [-1, 1, 1]).length = 3 ∧
    (Cross (lit [9007199254740992, -1, 1]) (lit [-1, 1, 1]) >>= fun c =>
      Dot c (lit [9007199254740992, -1, 1])) = .ok (F64.ofInt (-1)) ∧
    (Cross (lit [9007199254740992, -1, 1]) (lit [-1, 1, 1]) >>= fun c =>
      Dot c (lit [-1, 1, 1])) = .ok (F64.ofInt 1) ∧
    F64.equal (F64.ofInt (-1)) F64.zero = false ∧
    F64.equal (F64.ofInt 1) F64.zero = false :=
  ⟨by decide, by decide, by rfl, by rfl, by decide, by decide⟩

/-- C16, amended: for `a` and `b` both of length 3, `a.Cross(b)`,
`a.Cross(b).Dot(a)` and `a.Cross(b).Dot(b)` all return; when the components of
`a` and `b` are integers of absolute value at most `2^16` (so that no operation
rounds), both dot products are `0`. -/
theorem Cross_Dot_perpendicular (a b : Vector) (ha : a.length = 3) (hb : b.length = 3) :
    ∃ (c : Vector) (s t : F64), Cross a b = .ok c ∧ Dot c a = .ok s ∧ Dot c b = .ok t ∧
      ∀ p q : List Int, a = lit p → b = lit q → (∀ z ∈ p ++ q, |z| ≤ 2 ^ 16) →
        F64.equal s F64.zero = true ∧ F64.equal t F64.zero = true := by
  obtain ⟨A0, A1, A2, rfl⟩ := length_three a ha
  obtain ⟨B0, B1, B2, rfl⟩ := length_three b hb
  refine ⟨_, _, _, Cross_ok A0 A1 A2 B0 B1 B2, Dot_eq_zipWith _ _ rfl,
    Dot_eq_zipWith _ _ rfl, ?_⟩
  intro p q hp hq hbound
  obtain ⟨p0, p1, p2, rfl, rfl, rfl, rfl⟩ := lit_three p A0 A1 A2 hp
  obtain ⟨q0, q1, q2, rfl, rfl, rfl, rfl⟩ := lit_three q B0 B1 B2 hq
  have bp0 : |p0| ≤ 2 ^ 16 := hbound p0 (by simp)
  have bp1 : |p1| ≤ 2 ^ 16 := hbound p1 (by simp)
  have bp2 : |p2| ≤ 2 ^ 16 := hbound p2 (by simp)
  have bq0 : |q0| ≤ 2 ^ 16 := hbound q0 (by simp)
  have bq1 : |q1| ≤ 2 ^ 16 := hbound q1 (by simp)
  have bq2 : |q2| ≤ 2 ^ 16 := hbound q2 (by simp)
  have small : ∀ z : Int, |z| ≤ 2 ^ 16 → |z| < 2 ^ 53 :=
    fun z hz => lt_of_le_of_lt hz (by norm_num)
  have ep0 := F64.ofInt_exact p0 (small p0 bp0)
  have ep1 := F64.ofInt_exact p1 (small p1 bp1)
  have ep2 := F64.ofInt_exact p2 (small p2 bp2)
  have eq0 := F64.ofInt_exact q0 (small q0 bq0)
  have eq1 := F64.ofInt_exact q1 (small q1 bq1)
  have eq2 := F64.ofInt_exact q2 (small q2 bq2)
  obtain ⟨c0, d0⟩ := F64.cross_component_int _ _ _ _ p1 q2 p2 q1 ep1 eq2 ep2 eq1 bp1 bq2 bp2 bq1
  obtain ⟨c1, d1⟩ := F64.cross_component_int _ _ _ _ p2 q0 p0 q2 ep2 eq0 ep0 eq2 bp2 bq0 bp0 bq2
  obtain ⟨c2, d2⟩ := F64.cross_component_int _ _ _ _ p0 q1 p1 q0 ep0 eq1 ep1 eq0 bp0 bq1 bp1 bq0
  exact ⟨F64.dot3_int_zero _ _ _ _ _ _ _ _ _ p0 p1 p2 c0 c1 c2 ep0 ep1 ep2 d0 d1 d2
      bp0 bp1 bp2 (by ring),
    F64.dot3_int_zero _ _ _ _ _ _ _ _ _ q0 q1 q2 c0 c1 c2 eq0 eq1 eq2 d0 d1 d2
      bq0 bq1 bq2 (by ring)⟩

/-- Witness for the amended C16: for `[1,2,3]` and `[3,4,5]` the cross product
`[-2,4,-2]` has dot product `0` with both. -/
theorem Cross_Dot_perpendicular_witness :
    (lit [1, 2, 3]).length = 3 ∧ (lit [3, 4, 5]).length = 3 ∧
    (∃ (c : Vector) (s t : F64), Cross (lit [1, 2, 3]) (lit [3, 4, 5]) = .ok c ∧
      Dot c (lit [1, 2, 3]) = .ok s ∧ Dot c (lit [3, 4, 5]) = .ok t ∧
      ∀ p q : List Int, lit [1, 2, 3] = lit p → lit [3, 4, 5] = lit q →
        (∀ z ∈ p ++ q, |z| ≤ 2 ^ 16) →
        F64.equal s F64.zero = true ∧ F64.equal t F64.zero = true) ∧
    (∀ z ∈ ([1, 2, 3] : List Int) ++ [3, 4, 5], |z| ≤ 2 ^ 16) ∧
    (Cross (lit [1, 2, 3]) (lit [3, 4, 5]) >>= fun c => Dot c (lit [1, 2, 3])) =
      .ok F64.zero ∧
    (Cross (lit [1, 2, 3]) (lit [3, 4, 5]) >>= fun c => Dot c (lit [3, 4, 5])) =
      .ok F64.zero :=
  ⟨by decide, by decide,
    Cross_Dot_perpendicular (lit [1, 2, 3]) (lit [3, 4, 5]) (by decide) (by decide),
    by decide, by rfl, by rfl⟩

/-! ## The heap: what a call leaves untouched -/

theorem Mem.bind_apply {α β : Type} (m : Mem.M α) (f : α → Mem.M β) (h : Mem.Heap) :
    (m >>= f) h =
      (match m h with
      | (.ok a, h1) => f a h1
      | (.error p, h1) => (.error p, h1)) := rfl

theorem Mem.keeps_pure {α : Type} (n0 : Nat) (a : α) (P : α → Prop) (hP : P a) :
    Mem.Keeps n0 (pure a : Mem.M α) P := by
  intro h hh
  refine ⟨hh, fun _ _ => rfl, ?_⟩
  intro b hb
  have : a = b := by
    change Except.ok a = Except.ok b at hb
    exact Except.ok.inj hb
  rw [← this]
  exact hP

theorem Mem.keeps_panic {α : Type} (n0 : Nat) (p : Panic) (P : α → Prop) :
    Mem.Keeps n0 (Mem.panic p : Mem.M α) P := by
  intro h hh
  refine ⟨hh, fun _ _ => rfl, ?_⟩
  intro b hb
  cases hb

theorem Mem.keeps_bind {α β : Type} (n0 : Nat) (m : Mem.M α) (f : α → Mem.M β)
    (P : α → Prop) (Q : β → Prop) (hm : Mem.Keeps n0 m P)
    (hf : ∀ a, P a → Mem.Keeps n0 (f a) Q) : Mem.Keeps n0 (m >>= f) Q := by
  intro h hh
  obtain ⟨h1, h2, h3⟩ := hm h hh
  rw [Mem.bind_apply]
  rcases hmh : m h with ⟨r, g⟩
  rw [hmh] at h1 h2 h3
  cases r with
  | error p =>
    refine ⟨h1, h2, ?_⟩
    intro b hb
    cases hb
  | ok a =>
    obtain ⟨k1, k2, k3⟩ := hf a (h3 a rfl) g h1
    exact ⟨k1, fun id hid => (k2 id hid).trans (h2 id hid), k3⟩

theorem Mem.keeps_mono {α : Type} (n0 : Nat) (m : Mem.M α) (P Q : α → Prop)
    (hm : Mem.Keeps n0 m P) (hPQ : ∀ a, P a → Q a) : Mem.Keeps n0 m Q := by
  intro h hh
  obtain ⟨h1, h2, h3⟩ := hm h hh
  exact ⟨h1, h2, fun a ha => hPQ a (h3 a ha)⟩

theorem Mem.keeps_make (n0 : Nat) (n : Int) :
    Mem.Keeps n0 (Mem.make n) (fun v => n0 ≤ v.arr) := by
  intro h hh
  unfold Mem.make
  by_cases hn : n < 0 ∨ 8 * n > maxAlloc
  · rw [if_pos hn]
    refine ⟨hh, fun _ _ => rfl, ?_⟩
    intro b hb
    cases hb
  · rw [if_neg hn]
    refine ⟨?_, ?_, ?_⟩
    · rw [List.length_append]
      exact Nat.le_add_right_of_le hh
    · intro id hid
      exact List.getElem?_append_left (by omega)
    · intro b hb
      have : (⟨h.length, 0, n.toNat⟩ : Mem.Slice) = b := Except.ok.inj hb
      rw [← this]
      exact hh

theorem Mem.keeps_literal (n0 : Nat) (xs : List F64) :
    Mem.Keeps n0 (Mem.literal xs) (fun v => n0 ≤ v.arr) := by
  intro h hh
  unfold Mem.literal
  refine ⟨?_, ?_, ?_⟩
  · rw [List.length_append]
    exact Nat.le_add_right_of_le hh
  · intro id hid
    exact List.getElem?_append_left (by omega)
  · intro b hb
    have : (⟨h.length, 0, xs.length⟩ : Mem.Slice) = b := Except.ok.inj hb
    rw [← this]
    exact hh

theorem Mem.get_heap (v : Mem.Slice) (i : Nat) (h : Mem.Heap) : (Mem.get v i h).2 = h := by
  unfold Mem.get
  split_ifs
  · split
    · split <;> rfl
    · rfl
  · rfl

theorem Mem.keeps_get (n0 : Nat) (v : Mem.Slice) (i : Nat) :
    Mem.Keeps n0 (Mem.get v i) (fun _ => True) := by
  intro h hh
  rw [Mem.get_heap]
  exact ⟨hh, fun _ _ => rfl, fun _ _ => trivial⟩

theorem Mem.keeps_set (n0 : Nat) (v : Mem.Slice) (i : Nat) (x : F64) (hv : n0 ≤ v.arr) :
    Mem.Keeps n0 (Mem.set v i x) (fun _ => True) := by
  intro h hh
  unfold Mem.set
  split_ifs
  · cases h[v.arr]? with
    | none => exact ⟨hh, fun _ _ => rfl, fun _ _ => trivial⟩
    | some a =>
      refine ⟨?_, ?_, fun _ _ => trivial⟩
      · rw [List.length_set]
        exact hh
      · intro id hid
        exact List.getElem?_set_ne (by omega)
  · exact ⟨hh, fun _ _ => rfl, fun _ _ => trivial⟩

theorem Mem.keeps_forRange {σ : Type} (n0 : Nat) (body : Nat → σ → Mem.M σ)
    (hb : ∀ i s, Mem.Keeps n0 (body i s) (fun _ => True)) :
    ∀ (k lo : Nat) (s : σ), Mem.Keeps n0 (Mem.forRange k lo body s) (fun _ => True) := by
  intro k
  induction k with
  | zero =>
    intro lo s
    exact Mem.keeps_pure n0 s _ trivial
  | succ k ih =>
    intro lo s
    exact Mem.keeps_bind n0 _ _ _ _ (hb lo s) (fun s1 _ => ih (lo + 1) s1)

theorem Mem.keeps_pointwise (n0 : Nat) (op : F64 → F64 → F64) (v1 v2 : Mem.Slice) :
    Mem.Keeps n0 (do
      let v ← Mem.NewVector (v1.len : Int)
      Mem.forRange v1.len 0 (fun i _ => do
        let x ← Mem.get v1 i
        let y ← Mem.get v2 i
        Mem.set v i (op x y)) ()
      pure v) (fun v => n0 ≤ v.arr) := by
  refine Mem.keeps_bind n0 _ _ _ _ (Mem.keeps_make n0 _) ?_
  intro v hv
  refine Mem.keeps_bind n0 _ _ _ _ (Mem.keeps_forRange n0 _ ?_ _ _ _) ?_
  · intro i s
    refine Mem.keeps_bind n0 _ _ _ _ (Mem.keeps_get n0 v1 i) ?_
    intro x _
    refine Mem.keeps_bind n0 _ _ _ _ (Mem.keeps_get n0 v2 i) ?_
    intro y _
    exact Mem.keeps_set n0 v i _ hv
  · intro _ _
    exact Mem.keeps_pure n0 v _ hv

theorem Mem.keeps_Add (n0 : Nat) (v1 v2 : Mem.Slice) :
    Mem.Keeps n0 (Mem.Add v1 v2) (fun v => n0 ≤ v.arr) := by
  unfold Mem.Add
  split_ifs
  · exact Mem.keeps_panic n0 _ _
  · exact Mem.keeps_pointwise n0 F64.add v1 v2

theorem Mem.keeps_Sub (n0 : Nat) (v1 v2 : Mem.Slice) :
    Mem.Keeps n0 (Mem.Sub v1 v2) (fun v => n0 ≤ v.arr) := by
  unfold Mem.Sub
  split_ifs
  · exact Mem.keeps_panic n0 _ _
  · exact Mem.keeps_pointwise n0 F64.sub v1 v2

theorem Mem.keeps_Mul (n0 : Nat) (v1 : Mem.Slice) (f : F64) :
    Mem.Keeps n0 (Mem.Mul v1 f) (fun v => n0 ≤ v.arr) := by
  unfold Mem.Mul
  refine Mem.keeps_bind n0 _ _ _ _ (Mem.keeps_make n0 _) ?_
  intro v hv
  refine Mem.keeps_bind n0 _ _ _ _ (Mem.keeps_forRange n0 _ ?_ _ _ _) ?_
  · intro i s
    refine Mem.keeps_bind n0 _ _ _ _ (Mem.keeps_get n0 v1 i) ?_
    intro x _
    exact Mem.keeps_set n0 v i _ hv
  · intro _ _
    exact Mem.keeps_pure n0 v _ hv

theorem Mem.keeps_Dot (n0 : Nat) (v1 v2 : Mem.Slice) :
    Mem.Keeps n0 (Mem.Dot v1 v2) (fun _ => True) := by
  unfold Mem.Dot
  split_ifs
  · exact Mem.keeps_panic n0 _ _
  · refine Mem.keeps_forRange n0 _ ?_ _ _ _
    intro i s
    refine Mem.keeps_bind n0 _ _ _ _ (Mem.keeps_get n0 v1 i) ?_
    intro x _
    refine Mem.keeps_bind n0 _ _ _ _ (Mem.keeps_get n0 v2 i) ?_
    intro y _
    exact Mem.keeps_pure n0 _ _ trivial

theorem Mem.keeps_Norm (n0 : Nat) (v1 : Mem.Slice) :
    Mem.Keeps n0 (Mem.Norm v1) (fun _ => True) := by
  unfold Mem.Norm
  refine Mem.keeps_bind n0 _ _ _ _ (Mem.keeps_forRange n0 _ ?_ _ _ _) ?_
  · intro i s
    refine Mem.keeps_bind n0 _ _ _ _ (Mem.keeps_get n0 v1 i) ?_
    intro x _
    exact Mem.keeps_pure n0 _ _ trivial
  · intro s _
    exact Mem.keeps_pure n0 _ _ trivial

theorem Mem.keeps_Cross (n0 : Nat) (v1 v2 : Mem.Slice) :
    Mem.Keeps n0 (Mem.Cross v1 v2) (fun v => n0 ≤ v.arr) := by
  unfold Mem.Cross
  split_ifs
  · exact Mem.keeps_panic n0 _ _
  · refine Mem.keeps_bind n0 _ _ _ _ (Mem.keeps_get n0 _ _) (fun _ _ => ?_)
    refine Mem.keeps_bind n0 _ _ _ _ (Mem.keeps_get n0 _ _) (fun _ _ => ?_)
    refine Mem.keeps_bind n0 _ _ _ _ (Mem.keeps_get n0 _ _) (fun _ _ => ?_)
    refine Mem.keeps_bind n0 _ _ _ _ (Mem.keeps_get n0 _ _) (fun _ _ => ?_)
    refine Mem.keeps_bind n0 _ _ _ _ (Mem.keeps_get n0 _ _) (fun _ _ => ?_)
    refine Mem.keeps_bind n0 _ _ _ _ (Mem.keeps_get n0 _ _) (fun _ _ => ?_)
    refine Mem.keeps_bind n0 _ _ _ _ (Mem.keeps_get n0 _ _) (fun _ _ => ?_)
    refine Mem.keeps_bind n0 _ _ _ _ (Mem.keeps_get n0 _ _) (fun _ _ => ?_)
    refine Mem.keeps_bind n0 _ _ _ _ (Mem.keeps_get n0 _ _) (fun _ _ => ?_)
    refine Mem.keeps_bind n0 _ _ _ _ (Mem.keeps_get n0 _ _) (fun _ _ => ?_)
    refine Mem.keeps_bind n0 _ _ _ _ (Mem.keeps_get n0 _ _) (fun _ _ => ?_)
    refine Mem.keeps_bind n0 _ _ _ _ (Mem.keeps_get n0 _ _) (fun _ _ => ?_)
    exact Mem.keeps_literal n0 _

theorem Mem.get_fst (v : Mem.Slice) (i : Nat) (h : Mem.Heap) :
    (Mem.get v i h).1 =
      (if i < v.len then
        match h[v.arr]? with
        | some a =>
          match a[v.off + i]? with
          | some x => .ok x
          | none => .error Panic.indexOutOfRange
        | none => .error Panic.indexOutOfRange
      else .error Panic.indexOutOfRange) := by
  unfold Mem.get
  split_ifs
  · split
    · split <;> rfl
    · rfl
  · rfl

theorem Mem.frame_of_keeps {α : Type} (m : Mem.M α) (h : Mem.Heap) (P : α → Prop)
    (hk : Mem.Keeps h.length m P) : Mem.Frame m h := by
  intro v i hv
  rw [Mem.get_fst, Mem.get_fst, (hk h (le_refl _)).2.1 v.arr hv]

theorem Mem.fresh_of_keeps (m : Mem.M Mem.Slice) (h : Mem.Heap)
    (hk : Mem.Keeps h.length m (fun v => h.length ≤ v.arr)) : Mem.Fresh m h :=
  fun v hv => (hk h (le_refl _)).2.2 v hv

/-! ## The heap functions compute what the functions on values compute -/

theorem Mem.contents_length (h : Mem.Heap) (v : Mem.Slice) (hw : Mem.WellFormed h v) :
    (Mem.contents h v).length = v.len := by
  unfold Mem.contents
  rw [List.length_take, List.length_drop]
  have := hw.2
  omega

theorem Mem.get_of_wf (h ext : Mem.Heap) (v : Mem.Slice) (j : Nat)
    (hw : Mem.WellFormed h v) (hj : j < v.len) :
    Mem.get v j (h ++ ext) = (.ok ((Mem.contents h v).getD j F64.zero), h ++ ext) := by
  obtain ⟨h1, h2⟩ := hw
  have ha : (h ++ ext)[v.arr]? = some (h.getD v.arr []) := by
    rw [List.getElem?_append_left h1, List.getD_eq_getElem?_getD, List.getElem?_eq_getElem h1]
    rfl
  have hlt : v.off + j < (h.getD v.arr []).length := by omega
  have hx : (h.getD v.arr [])[v.off + j]? = some ((Mem.contents h v).getD j F64.zero) := by
    unfold Mem.contents
    generalize h.getD v.arr [] = a at hlt
    rw [List.getD_eq_getElem?_getD, List.getElem?_take_of_lt hj, List.getElem?_drop,
      List.getElem?_eq_getElem hlt]
    rfl
  unfold Mem.get
  rw [if_pos hj]
  simp only [ha, hx]

theorem Mem.set_new (h : Mem.Heap) (w : List F64) (n j : Nat) (x : F64) (hj : j < n) :
    Mem.set ⟨h.length, 0, n⟩ j x (h ++ [w]) = (.ok (), h ++ [w.set j x]) := by
  have ha : (h ++ [w])[h.length]? = some w := by
    rw [List.getElem?_append_right (le_refl _)]
    simp
  unfold Mem.set
  simp only [if_pos hj, ha, Nat.zero_add]
  congr 1
  rw [List.set_append_right _ _ (le_refl _)]
  simp

/-- A store loop on a fresh array runs as the store loop on values runs. -/
theorem Mem.sim_store_loop (h : Mem.Heap) (n : Nat) (body : Nat → Unit → Mem.M Unit)
    (bodyP : Nat → Vector → Except Panic Vector)
    (hsim : ∀ j (w : Vector), j < n → w.length = n →
      ∃ w1 : Vector, bodyP j w = .ok w1 ∧ w1.length = n ∧
        body j () (h ++ [w]) = (.ok (), h ++ [w1])) :
    ∀ (k i : Nat) (w : Vector), i + k = n → w.length = n →
      ∃ w1 : Vector, GoVector.forRange k i bodyP w = .ok w1 ∧ w1.length = n ∧
        Mem.forRange k i body () (h ++ [w]) = (.ok (), h ++ [w1]) := by
  intro k
  induction k with
  | zero =>
    intro i w _ hw
    exact ⟨w, rfl, hw, rfl⟩
  | succ k ih =>
    intro i w hi hw
    obtain ⟨w1, h1, h2, h3⟩ := hsim i w (by omega) hw
    obtain ⟨w2, k1, k2, k3⟩ := ih (i + 1) w1 (by omega) h2
    refine ⟨w2, ?_, k2, ?_⟩
    · rw [GoVector.forRange, h1]
      exact k1
    · rw [Mem.forRange, Mem.bind_apply, h3]
      exact k3

/-- A loop that only reads the heap runs as the loop on values runs, and leaves
the heap alone. -/
theorem Mem.sim_read_loop {σ : Type} (H : Mem.Heap) (n : Nat) (body : Nat → σ → Mem.M σ)
    (bodyP : Nat → σ → Except Panic σ)
    (hsim : ∀ j (s : σ), j < n → body j s H = (bodyP j s, H)) :
    ∀ (k i : Nat) (s : σ), i + k = n →
      Mem.forRange k i body s H = (GoVector.forRange k i bodyP s, H) := by
  intro k
  induction k with
  | zero =>
    intro i s _
    rfl
  | succ k ih =>
    intro i s hi
    rw [Mem.forRange, Mem.bind_apply, hsim i s (by omega), GoVector.forRange]
    cases hb : bodyP i s with
    | error p => rfl
    | ok s1 => exact ih (i + 1) s1 (by omega)

theorem Mem.make_len (h : Mem.Heap) (n : Nat) (hlim : 8 * (n : Int) ≤ maxAlloc) :
    Mem.NewVector (n : Int) h =
      (.ok ⟨h.length, 0, n⟩, h ++ [List.replicate n F64.zero]) := by
  unfold Mem.NewVector Mem.make
  rw [if_neg (by omega), Int.toNat_ofNat]

/-- The loop of `Add` and `Sub` on the heap appends, as one new array, the
vector that the loop on values computes. -/
theorem Mem.pointwise_refines (op : F64 → F64 → F64) (h : Mem.Heap) (v1 v2 : Mem.Slice)
    (hw1 : Mem.WellFormed h v1) (hw2 : Mem.WellFormed h v2) (hl : v1.len = v2.len)
    (hlim : 8 * (v1.len : Int) ≤ maxAlloc) :
    ∃ w : Vector,
      GoVector.forRange v1.len 0 (fun i v => do
        let x ← index (Mem.contents h v1) i
        let y ← index (Mem.contents h v2) i
        store v i (op x y)) (List.replicate v1.len F64.zero) = .ok w ∧
      (do
        let v ← Mem.NewVector (v1.len : Int)
        Mem.forRange v1.len 0 (fun i _ => do
          let x ← Mem.get v1 i
          let y ← Mem.get v2 i
          Mem.set v i (op x y)) ()
        pure v : Mem.M Mem.Slice) h = (.ok ⟨h.length, 0, v1.len⟩, h ++ [w]) := by
  have hc1 := Mem.contents_length h v1 hw1
  have hc2 := Mem.contents_length h v2 hw2
  obtain ⟨w, k1, _, k3⟩ := Mem.sim_store_loop h v1.len
    (fun i _ => do
      let x ← Mem.get v1 i
      let y ← Mem.get v2 i
      Mem.set ⟨h.length, 0, v1.len⟩ i (op x y))
    (fun i v => do
      let x ← index (Mem.contents h v1) i
      let y ← index (Mem.contents h v2) i
      store v i (op x y))
    (by
      intro j w hj hw
      refine ⟨w.set j (op ((Mem.contents h v1).getD j F64.zero)
        ((Mem.contents h v2).getD j F64.zero)), ?_, ?_, ?_⟩
      · show (index (Mem.contents h v1) j >>= fun x =>
          index (Mem.contents h v2) j >>= fun y => store w j (op x y)) = _
        rw [index_of_lt _ j (by omega), index_of_lt _ j (by omega)]
        exact store_of_lt w j _ (hw ▸ hj)
      · rw [List.length_set]
        exact hw
      · show (Mem.get v1 j >>= fun x => Mem.get v2 j >>= fun y =>
          Mem.set ⟨h.length, 0, v1.len⟩ j (op x y)) (h ++ [w]) = _
        rw [Mem.bind_apply, Mem.get_of_wf h [w] v1 j hw1 hj]
        show (Mem.get v2 j >>= fun y => Mem.set ⟨h.length, 0, v1.len⟩ j
          (op ((Mem.contents h v1).getD j F64.zero) y)) (h ++ [w]) = _
        rw [Mem.bind_apply, Mem.get_of_wf h [w] v2 j hw2 (hl ▸ hj)]
        exact Mem.set_new h w v1.len j _ hj)
    v1.len 0 (List.replicate v1.len F64.zero) (by omega) (by simp)
  refine ⟨w, k1, ?_⟩
  rw [Mem.bind_apply, Mem.make_len _ _ hlim]
  dsimp only
  rw [Mem.bind_apply, k3]
  rfl

/-- On well-formed operands (whose length, like that of every vector that
exists, is within the allocation limit), `Add` on the heap is `Add` on the
components: it panics when that panics, leaving the heap alone, and otherwise
appends the returned vector as one new array and returns a slice of it. -/
theorem Mem.Add_refines (h : Mem.Heap) (v1 v2 : Mem.Slice)
    (hw1 : Mem.WellFormed h v1) (hw2 : Mem.WellFormed h v2)
    (hlim : 8 * (v1.len : Int) ≤ maxAlloc) :
    Mem.Add v1 v2 h =
      (match GoVector.Add (Mem.contents h v1) (Mem.contents h v2) with
      | .ok w => (.ok ⟨h.length, 0, v1.len⟩, h ++ [w])
      | .error p => (.error p, h)) := by
  have hc1 := Mem.contents_length h v1 hw1
  have hc2 := Mem.contents_length h v2 hw2
  by_cases hl : v1.len = v2.len
  · obtain ⟨w, k1, k2⟩ := Mem.pointwise_refines F64.add h v1 v2 hw1 hw2 hl hlim
    have hp : GoVector.Add (Mem.contents h v1) (Mem.contents h v2) = .ok w := by
      unfold GoVector.Add
      rw [if_neg (by rw [hc1, hc2]; simpa using hl), NewVector_len, hc1]
      exact k1
    rw [hp]
    unfold Mem.Add
    rw [if_neg (by simpa using hl)]
    exact k2
  · rw [Add_mismatch _ _ (by rw [hc1, hc2]; exact hl)]
    unfold Mem.Add
    rw [if_pos hl]
    rfl

/-- On well-formed operands, `Sub` on the heap is `Sub` on the components. -/
theorem Mem.Sub_refines (h : Mem.Heap) (v1 v2 : Mem.Slice)
    (hw1 : Mem.WellFormed h v1) (hw2 : Mem.WellFormed h v2)
    (hlim : 8 * (v1.len : Int) ≤ maxAlloc) :
    Mem.Sub v1 v2 h =
      (match GoVector.Sub (Mem.contents h v1) (Mem.contents h v2) with
      | .ok w => (.ok ⟨h.length, 0, v1.len⟩, h ++ [w])
      | .error p => (.error p, h)) := by
  have hc1 := Mem.contents_length h v1 hw1
  have hc2 := Mem.contents_length h v2 hw2
  by_cases hl : v1.len = v2.len
  · obtain ⟨w, k1, k2⟩ := Mem.pointwise_refines F64.sub h v1 v2 hw1 hw2 hl hlim
    have hp : GoVector.Sub (Mem.contents h v1) (Mem.contents h v2) = .ok w := by
      unfold GoVector.Sub
      rw [if_neg (by rw [hc1, hc2]; simpa using hl), NewVector_len, hc1]
      exact k1
    rw [hp]
    unfold Mem.Sub
    rw [if_neg (by simpa using hl)]
    exact k2
  · rw [Sub_mismatch _ _ (by rw [hc1, hc2]; exact hl)]
    unfold Mem.Sub
    rw [if_pos hl]
    rfl

/-- On a well-formed operand, `Mul` on the heap is `Mul` on the components. -/
theorem Mem.Mul_refines (h : Mem.Heap) (v1 : Mem.Slice) (f : F64)
    (hw1 : Mem.WellFormed h v1) (hlim : 8 * (v1.len : Int) ≤ maxAlloc) :
    Mem.Mul v1 f h =
      (match GoVector.Mul (Mem.contents h v1) f with
      | .ok w => (.ok ⟨h.length, 0, v1.len⟩, h ++ [w])
      | .error p => (.error p, h)) := by
  have hc1 := Mem.contents_length h v1 hw1
  obtain ⟨w, k1, _, k3⟩ := Mem.sim_store_loop h v1.len
    (fun i _ => do
      let x ← Mem.get v1 i
      Mem.set ⟨h.length, 0, v1.len⟩ i (F64.mul x f))
    (fun i v => do
      let x ← index (Mem.contents h v1) i
      store v i (F64.mul x f))
    (by
      intro j w hj hw
      refine ⟨w.set j (F64.mul ((Mem.contents h v1).getD j F64.zero) f), ?_, ?_, ?_⟩
      · show (index (Mem.contents h v1) j >>= fun x => store w j (F64.mul x f)) = _
        rw [index_of_lt _ j (by omega)]
        exact store_of_lt w j _ (hw ▸ hj)
      · rw [List.length_set]
        exact hw
      · show (Mem.get v1 j >>= fun x =>
          Mem.set ⟨h.length, 0, v1.len⟩ j (F64.mul x f)) (h ++ [w]) = _
        rw [Mem.bind_apply, Mem.get_of_wf h [w] v1 j hw1 hj]
        exact Mem.set_new h w v1.len j _ hj)
    v1.len 0 (List.replicate v1.len F64.zero) (by omega) (by simp)
  have hp : GoVector.Mul (Mem.contents h v1) f = .ok w := by
    unfold GoVector.Mul
    rw [NewVector_len, hc1]
    exact k1
  rw [hp]
  unfold Mem.Mul
  rw [Mem.bind_apply, Mem.make_len _ _ hlim]
  dsimp only
  rw [Mem.bind_apply, k3]
  rfl

theorem Mem.get_of_wf_here (h : Mem.Heap) (v : Mem.Slice) (j : Nat)
    (hw : Mem.WellFormed h v) (hj : j < v.len) :
    Mem.get v j h = (.ok ((Mem.contents h v).getD j F64.zero), h) := by
  have := Mem.get_of_wf h [] v j hw hj
  rw [List.append_nil] at this
  exact this

/-- On well-formed operands, `Dot` on the heap returns what `Dot` on the
components returns and leaves the heap as it was. -/
theorem Mem.Dot_refines (h : Mem.Heap) (v1 v2 : Mem.Slice)
    (hw1 : Mem.WellFormed h v1) (hw2 : Mem.WellFormed h v2) :
    Mem.Dot v1 v2 h = (GoVector.Dot (Mem.contents h v1) (Mem.contents h v2), h) := by
  have hc1 := Mem.contents_length h v1 hw1
  have hc2 := Mem.contents_length h v2 hw2
  unfold Mem.Dot GoVector.Dot
  by_cases hl : v1.len = v2.len
  · rw [if_neg (by simpa using hl), if_neg (by rw [hc1, hc2]; simpa using hl), hc1]
    apply Mem.sim_read_loop h v1.len _ _ _ v1.len 0 F64.zero (by omega)
    intro j s hj
    show (Mem.get v1 j >>= fun x => Mem.get v2 j >>= fun y =>
      pure (F64.add s (F64.mul x y))) h = _
    rw [Mem.bind_apply, Mem.get_of_wf_here h v1 j hw1 hj]
    show (Mem.get v2 j >>= fun y =>
      pure (F64.add s (F64.mul ((Mem.contents h v1).getD j F64.zero) y))) h = _
    rw [Mem.bind_apply, Mem.get_of_wf_here h v2 j hw2 (hl ▸ hj)]
    show _ = ((index (Mem.contents h v1) j >>= fun x =>
      index (Mem.contents h v2) j >>= fun y => pure (F64.add s (F64.mul x y))), h)
    rw [index_of_lt _ j (by omega), index_of_lt _ j (by omega)]
    rfl
  · rw [if_pos hl, if_pos (by rw [hc1, hc2]; exact hl)]
    rfl

/-- On a well-formed operand, `Norm` on the heap returns what `Norm` on the
components returns and leaves the heap as it was. -/
theorem Mem.Norm_refines (h : Mem.Heap) (v1 : Mem.Slice) (hw1 : Mem.WellFormed h v1) :
    Mem.Norm v1 h = (GoVector.Norm (Mem.contents h v1), h) := by
  have hc1 := Mem.contents_length h v1 hw1
  have hloop : Mem.forRange v1.len 0 (fun i s => do
      let x ← Mem.get v1 i
      pure (F64.add s (F64.mul x x))) F64.zero h =
      (GoVector.forRange v1.len 0 (fun i s => do
        let x ← index (Mem.contents h v1) i
        pure (F64.add s (F64.mul x x))) F64.zero, h) := by
    apply Mem.sim_read_loop h v1.len _ _ _ v1.len 0 F64.zero (by omega)
    intro j s hj
    show (Mem.get v1 j >>= fun x => pure (F64.add s (F64.mul x x))) h = _
    rw [Mem.bind_apply, Mem.get_of_wf_here h v1 j hw1 hj]
    show _ = ((index (Mem.contents h v1) j >>= fun x => pure (F64.add s (F64.mul x x))), h)
    rw [index_of_lt _ j (by omega)]
    rfl
  unfold Mem.Norm GoVector.Norm
  rw [Mem.bind_apply, hloop, hc1]
  cases GoVector.forRange v1.len 0 (fun i s => do
      let x ← index (Mem.contents h v1) i
      pure (F64.add s (F64.mul x x))) F64.zero with
  | error p => rfl
  | ok s => rfl

/-- On well-formed operands, `Cross` on the heap is `Cross` on the components. -/
theorem Mem.Cross_refines (h : Mem.Heap) (v1 v2 : Mem.Slice)
    (hw1 : Mem.WellFormed h v1) (hw2 : Mem.WellFormed h v2) :
    Mem.Cross v1 v2 h =
      (match GoVector.Cross (Mem.contents h v1) (Mem.contents h v2) with
      | .ok w => (.ok ⟨h.length, 0, 3⟩, h ++ [w])
      | .error p => (.error p, h)) := by
  have hc1 := Mem.contents_length h v1 hw1
  have hc2 := Mem.contents_length h v2 hw2
  by_cases hc : v1.len ≠ 3 ∨ v2.len ≠ 3
  · rw [Cross_mismatch _ _ (by rw [hc1, hc2]; exact hc)]
    unfold Mem.Cross
    rw [if_pos hc]
    rfl
  · have h13 : v1.len = 3 := not_not.mp fun h1 => hc (Or.inl h1)
    have h23 : v2.len = 3 := not_not.mp fun h1 => hc (Or.inr h1)
    obtain ⟨a0, a1, a2, ha⟩ := length_three (Mem.contents h v1) (hc1.trans h13)
    obtain ⟨b0, b1, b2, hb⟩ := length_three (Mem.contents h v2) (hc2.trans h23)
    have g10 : Mem.get v1 0 h = (.ok a0, h) := by
      rw [Mem.get_of_wf_here h v1 0 hw1 (by omega), ha]
      rfl
    have g11 : Mem.get v1 1 h = (.ok a1, h) := by
      rw [Mem.get_of_wf_here h v1 1 hw1 (by omega), ha]
      rfl
    have g12 : Mem.get v1 2 h = (.ok a2, h) := by
      rw [Mem.get_of_wf_here h v1 2 hw1 (by omega), ha]
      rfl
    have g20 : Mem.get v2 0 h = (.ok b0, h) := by
      rw [Mem.get_of_wf_here h v2 0 hw2 (by omega), hb]
      rfl
    have g21 : Mem.get v2 1 h = (.ok b1, h) := by
      rw [Mem.get_of_wf_here h v2 1 hw2 (by omega), hb]
      rfl
    have g22 : Mem.get v2 2 h = (.ok b2, h) := by
      rw [Mem.get_of_wf_here h v2 2 hw2 (by omega), hb]
      rfl
    rw [ha, hb, Cross_ok]
    unfold Mem.Cross
    rw [if_neg hc]
    simp only [Mem.bind_apply, g10, g11, g12, g20, g21, g22]
    rfl

/-- C19: no operation mutates its operands. On any heap, for any operands
(aliased or not) and whether the call returns or panics, every vector whose
backing array existed before a call of `Add`, `Sub`, `Mul`, `Dot`, `Cross` or
`Norm` has after the call the components it had before (its length is part of
its own slice header, which the callee only has a copy of); a vector returned
by `Add`, `Sub`, `Mul` or `Cross` lives in a backing array allocated during the
call. -/
theorem operations_do_not_mutate (h : Mem.Heap) (v1 v2 : Mem.Slice) (f : F64) :
    (Mem.Frame (Mem.Add v1 v2) h ∧ Mem.Fresh (Mem.Add v1 v2) h) ∧
    (Mem.Frame (Mem.Sub v1 v2) h ∧ Mem.Fresh (Mem.Sub v1 v2) h) ∧
    (Mem.Frame (Mem.Mul v1 f) h ∧ Mem.Fresh (Mem.Mul v1 f) h) ∧
    Mem.Frame (Mem.Dot v1 v2) h ∧
    (Mem.Frame (Mem.Cross v1 v2) h ∧ Mem.Fresh (Mem.Cross v1 v2) h) ∧
    Mem.Frame (Mem.Norm v1) h :=
  ⟨⟨Mem.frame_of_keeps _ h _ (Mem.keeps_Add h.length v1 v2),
      Mem.fresh_of_keeps _ h (Mem.keeps_Add h.length v1 v2)⟩,
    ⟨Mem.frame_of_keeps _ h _ (Mem.keeps_Sub h.length v1 v2),
      Mem.fresh_of_keeps _ h (Mem.keeps_Sub h.length v1 v2)⟩,
    ⟨Mem.frame_of_keeps _ h _ (Mem.keeps_Mul h.length v1 f),
      Mem.fresh_of_keeps _ h (Mem.keeps_Mul h.length v1 f)⟩,
    Mem.frame_of_keeps _ h _ (Mem.keeps_Dot h.length v1 v2),
    ⟨Mem.frame_of_keeps _ h _ (Mem.keeps_Cross h.length v1 v2),
      Mem.fresh_of_keeps _ h (Mem.keeps_Cross h.length v1 v2)⟩,
    Mem.frame_of_keeps _ h _ (Mem.keeps_Norm h.length v1)⟩

/-- Witness for C19 on the heap holding `[1,2]` and `[3,4,5]`: adding the first
vector to itself (receiver and argument aliased) returns a slice of a new third
array `[2,4]` and leaves the two arrays as they were; adding the two vectors of
different lengths panics and leaves the heap as it was. -/
theorem operations_do_not_mutate_witness :
    Mem.Frame (Mem.Add ⟨0, 0, 2⟩ ⟨0, 0, 2⟩) [lit [1, 2], lit [3, 4, 5]] ∧
    Mem.Add ⟨0, 0, 2⟩ ⟨0, 0, 2⟩ [lit [1, 2], lit [3, 4, 5]] =
      (.ok ⟨2, 0, 2⟩, [lit [1, 2], lit [3, 4, 5], lit [2, 4]]) ∧
    Mem.Add ⟨0, 0, 2⟩ ⟨1, 0, 3⟩ [lit [1, 2], lit [3, 4, 5]] =
      (.error (Panic.user "dimensions don't match"), [lit [1, 2], lit [3, 4, 5]]) :=
  ⟨(operations_do_not_mutate [lit [1, 2], lit [3, 4, 5]] ⟨0, 0, 2⟩ ⟨0, 0, 2⟩ F64.zero).1.1,
    by rfl, by rfl⟩

end GoVector
